import Mathlib

/-!
Verification development for the anvi'o reaction-network constructor
(`anvio/biochemistry/reactionnetwork.py`).

The Python module is shallowly embedded below.  Python dictionaries are
modelled as association lists (`List (κ × α)`) whose assignment operation
replaces the value at an existing key in place and otherwise appends at the
end, which coincides with insertion-ordered dict semantics on the
duplicate-key-free states reachable by the code.  Mutable shared objects
(genes, KOs, reactions) are modelled by storing their current values in the
owning maps and writing updated values back at the points where the Python
code has finished mutating them; no intermediate state is observed between a
mutation and the corresponding write-back, so the final states coincide.
Fallible operations (uncaught `KeyError` / `IndexError` / `ValueError` and
explicit `ConfigError`) are modelled with `Except String`.
-/

set_option maxHeartbeats 2000000
set_option maxRecDepth 100000

/-- Lookup in an insertion-ordered dictionary modelled as an association
list: the value at the first (and, on reachable states, only) occurrence of
the key. -/
def alookup {κ α : Type} [DecidableEq κ] (k : κ) : List (κ × α) → Option α
  | [] => none
  | p :: rest => if p.1 = k then some p.2 else alookup k rest

/-- Dictionary assignment `d[k] = v`: replace the value at the key if the key
is present (on reachable states the key occurs at most once; replacing every
occurrence keeps the operation well behaved on all states), else append the
new binding at the end, preserving insertion order. -/
def ainsert {κ α : Type} [DecidableEq κ] (k : κ) (v : α) (l : List (κ × α)) : List (κ × α) :=
  if (alookup k l).isSome then l.map (fun p => if p.1 = k then (k, v) else p)
  else l ++ [(k, v)]

/-- Keys of an association list, in insertion order. -/
def keysOf {κ α : Type} (l : List (κ × α)) : List κ := l.map Prod.fst

instance {ε α : Type} [DecidableEq ε] [DecidableEq α] : DecidableEq (Except ε α) := fun a b =>
  match a, b with
  | .ok x, .ok y => if h : x = y then .isTrue (by rw [h]) else .isFalse (by simp [h])
  | .error x, .error y => if h : x = y then .isTrue (by rw [h]) else .isFalse (by simp [h])
  | .ok _, .error _ => .isFalse (by simp)
  | .error _, .ok _ => .isFalse (by simp)

/-- Fuel-driven splitting of a character list on a nonempty separator
occurrence by occurrence, left to right (the semantics of Python
`str.split(sep)` and of `String.splitOn`, restated with structural recursion
so that every use is computable by plain reduction).  The current fragment
is carried reversed; the fuel, initialized above the input length, strictly
dominates the number of steps. -/
def splitOnFuel (sep : List Char) : Nat → List Char → List Char → List (List Char)
  | 0, cs, cur => [cur.reverse ++ cs]
  | Nat.succ fuel, cs, cur =>
      match cs with
      | [] => [cur.reverse]
      | c :: rest =>
          if sep ≠ [] ∧ sep.isPrefixOf cs then
            cur.reverse :: splitOnFuel sep fuel (cs.drop sep.length) []
          else
            splitOnFuel sep fuel rest (c :: cur)

/-- Python `s.split(sep)` for a nonempty separator (and `String.splitOn`):
the fragments between consecutive non-overlapping occurrences of the
separator, scanning left to right; with no occurrence, the whole string. -/
def strSplitOn (s sep : String) : List String :=
  if sep = "" then [s]
  else (splitOnFuel sep.data (s.data.length + 1) s.data []).map (fun cs => String.mk cs)

/-- The token accumulation loop of Python `str.split()` with no argument:
split on runs of whitespace and drop empty fragments.  The current token is
carried reversed. -/
def pySplitChars : List Char → List Char → List String
  | [], cur => if cur = [] then [] else [String.mk cur.reverse]
  | c :: rest, cur =>
      if c.isWhitespace then
        if cur = [] then pySplitChars rest []
        else String.mk cur.reverse :: pySplitChars rest []
      else pySplitChars rest (c :: cur)

/-- Python `str.split()` with no argument. -/
def pySplit (s : String) : List String :=
  pySplitChars s.data []

/-- Python `int(s)` on the plain digit strings used as compartment indices
(signs and surrounding whitespace, which `int` also accepts, do not occur in
the data and are outside the model). -/
def strToNat (s : String) : Option Nat :=
  if s.data ≠ [] ∧ s.data.all Char.isDigit then
    some (s.data.foldl (fun a c => a * 10 + (c.toNat - '0'.toNat)) 0)
  else none

/-- Model of `tuple(set(xs).intersection(set(ys)))`.  CPython iterates a set
in an unspecified hash order; the embedding fixes the order of first
appearance in `xs` (deduplicated).  All statements proved about these tuples
are order-insensitive (membership and subset facts), so the fixed order is
immaterial. -/
def setInter (xs ys : List String) : List String :=
  xs.dedup.filter (fun x => x ∈ ys)

/-- Exact rational denoted by a signless decimal literal: digits with an
optional single decimal point, as accepted for the stoichiometry coefficient
fields.  (`fractions.Fraction(str)` also accepts forms such as `n/d` or
exponents that never occur in these fields; they are outside the model.) -/
def parseDecimalCore (cs : List Char) : Option Rat :=
  let ip := cs.takeWhile (fun c => c ≠ '.')
  let rest := cs.drop ip.length
  let valid (ds : List Char) : Bool := ds.all Char.isDigit
  let digitsToNat (ds : List Char) : Nat :=
    ds.foldl (fun a c => a * 10 + (c.toNat - '0'.toNat)) 0
  match rest with
  | [] =>
      if ip ≠ [] ∧ valid ip then some ((digitsToNat ip : Int) : Rat) else none
  | _ :: fp =>
      if (ip ≠ [] ∨ fp ≠ []) ∧ valid ip ∧ valid fp then
        some (mkRat (digitsToNat ip * 10 ^ fp.length + digitsToNat fp) (10 ^ fp.length))
      else none

/-- Model of `fractions.Fraction(s)` for the plain decimal literals occurring
in ModelSEED stoichiometry strings: optional sign followed by a decimal
literal.  The result is automatically in lowest terms, as for `Fraction`. -/
def parseDecimal (s : String) : Option Rat :=
  match s.data with
  | '-' :: rest => (parseDecimalCore rest).map (fun q => -q)
  | '+' :: rest => parseDecimalCore rest
  | cs => parseDecimalCore cs

/-- Python `abs` on an exact rational. -/
def ratAbs (q : Rat) : Rat := if q < 0 then -q else q

/-- The continued-fraction loop of `fractions.Fraction.limit_denominator`:
starting from convergent state `(p0, q0, p1, q1)` and remainder `n/d`,
advance while the next convergent denominator stays within the bound.  The
fuel argument dominates the number of iterations (the remainder denominator
strictly decreases), so the supplied fuel `den + 1` is never exhausted. -/
def ldLoop : Nat → Nat → Int → Int → Int → Int → Int → Int → (Int × Int × Int × Int)
  | 0, _, p0, q0, p1, q1, _, _ => (p0, q0, p1, q1)
  | Nat.succ fuel, maxDen, p0, q0, p1, q1, n, d =>
      let a := Int.fdiv n d
      let q2 := q0 + a * q1
      if (maxDen : Int) < q2 then (p0, q0, p1, q1)
      else ldLoop fuel maxDen p1 q1 (p0 + a * p1) q2 d (n - a * d)

/-- Model of `Fraction.limit_denominator(max_denominator)`: the closest
rational with denominator at most `maxDen`, computed exactly as in CPython
via continued-fraction bounds.  A fraction already within the bound is
returned unchanged. -/
def limit_denominator (f : Rat) (maxDen : Nat) : Rat :=
  if f.den ≤ maxDen then f
  else
    let st := ldLoop (f.den + 1) maxDen 0 1 1 0 f.num (f.den : Int)
    let p0 := st.1
    let q0 := st.2.1
    let p1 := st.2.2.1
    let q1 := st.2.2.2
    let k : Int := Int.fdiv ((maxDen : Int) - q0) q1
    let bound1 : Rat := ((p0 + k * p1 : Int) : Rat) / ((q0 + k * q1 : Int) : Rat)
    let bound2 : Rat := ((p1 : Int) : Rat) / ((q1 : Int) : Rat)
    if ratAbs (bound2 - f) ≤ ratAbs (bound1 - f) then bound2 else bound1

/-- Left fold of `functools.reduce(lcm, ds)` over the denominators; on the
empty list (which `reduce` rejects and the caller screens out) the value is
the neutral 1. -/
def lcmList : List Nat → Nat
  | [] => 1
  | d :: ds => ds.foldl Nat.lcm d

/-- Bit length of a natural number, fuel-based so that the kernel can
evaluate it (`bitlenFuel n n` suffices: a number never has more bits than
its own value). -/
def bitlenFuel : Nat → Nat → Nat
  | 0, _ => 0
  | fuel + 1, n => if n = 0 then 0 else bitlenFuel fuel (n / 2) + 1

/-- Bit length: the least j with n < 2 ^ j. -/
def bitlen (n : Nat) : Nat := bitlenFuel n n

/-- Integer division rounded to nearest, ties to even. -/
def divRoundNE (N D : Nat) : Nat :=
  let q := N / D
  let r := N % D
  if 2 * r < D then q else if D < 2 * r then q + 1 else if q % 2 = 0 then q else q + 1

/-- Core of CPython float true division for positive operands A / b: the
rounded significand m and the exponent t of the rounding quantum, so that
the double value is m / 2 ^ t when 0 ≤ t and m * 2 ^ (-t) otherwise, with
an `OverflowError` when the quotient exceeds the double range.  Normal
results are rounded at 53 significant bits, subnormal ones at the fixed
quantum 2 ^ (-1074), matching IEEE-754 binary64 round-to-nearest-even. -/
def floatDivCore (A b : Nat) : Except String (Nat × Int) :=
  let e0 : Int := (bitlen A : Int) - (bitlen b : Int)
  let c : Bool :=
    if 0 ≤ e0 then decide (b * 2 ^ e0.toNat ≤ A) else decide (b ≤ A * 2 ^ (-e0).toNat)
  let e : Int := if c then e0 else e0 - 1
  if 1024 ≤ e then .error "OverflowError: integer division result too large for a float"
  else
    let t : Int := if -1022 ≤ e then 52 - e else 1074
    let m := if 0 ≤ t then divRoundNE (A * 2 ^ t.toNat) b else divRoundNE A (b * 2 ^ (-t).toNat)
    let overflow : Bool :=
      if 0 ≤ t then decide (2 ^ (1024 + t.toNat) ≤ m) else decide (2 ^ 1024 ≤ m * 2 ^ (-t).toNat)
    if overflow then .error "OverflowError: integer division result too large for a float"
    else .ok (m, t)

/-- CPython float true division of an integer by a positive integer
(`int.__truediv__`, through which line 1118 computes
`r.numerator * lcm_denominator / r.denominator`): the IEEE-754 double
nearest to a / b with ties to even, as the rational number it denotes. -/
def floatDivInt (a : Int) (b : Nat) : Except String Rat :=
  if b = 0 then .error "ZeroDivisionError: division by zero"
  else if a = 0 then .ok 0
  else
    (floatDivCore a.natAbs b).map (fun mt =>
      let sm : Int := if a < 0 then -(mt.1 : Int) else (mt.1 : Int)
      if 0 ≤ mt.2 then mkRat sm (2 ^ mt.2.toNat) else ((sm * 2 ^ (-mt.2).toNat : Int) : Rat))

/-- `int(x)` applied to a float value: truncation toward zero. -/
def float_to_int (q : Rat) : Int := q.num.tdiv (q.den : Int)

/-- Embedding of `Constructor._to_lcm_denominator`.  The input is the list of
literal decimal coefficient strings from a stoichiometry string.  Each is
parsed exactly (`fractions.Fraction` on the string) and passed through
`limit_denominator` with the CPython default bound 1000000; the least common
multiple of the resulting denominators scales every numerator.  The final
`int(r.numerator * lcm_denom / r.denominator)` goes through CPython float
true division (only exact up to the 2^53 double precision horizon) followed
by `int()` truncation. -/
def to_lcm_denominator (floats : List String) : Except String (List Int) :=
  match floats.mapM (fun f => (parseDecimal f).map (fun q => limit_denominator q 1000000)) with
  | none => .error "ValueError: invalid literal for Fraction"
  | some [] => .error "TypeError: reduce of empty sequence"
  | some (r0 :: rs) =>
      let rationals := r0 :: rs
      let lcm_denom := lcmList (rationals.map Rat.den)
      rationals.mapM (fun r => (floatDivInt (r.num * (lcm_denom : Int)) r.den).map float_to_int)

/-- Greatest common divisor of a list of integers (used only to state the
minimality question about coefficient vectors). -/
def gcdIntList (l : List Int) : Nat :=
  l.foldl (fun g c => Nat.gcd g c.natAbs) 0

/-- Representation of a chemical in the network (`ModelSEEDCompound`).
Nullable reference-table fields are `Option`s; `kegg_id_aliases` is the
split alias list (empty for a missing value). -/
structure ModelSEEDCompound where
  modelseed_id : String
  modelseed_name : Option String
  kegg_id_aliases : List String
  charge : Option Int
  formula : Option String
deriving DecidableEq, Repr

/-- Representation of a reaction in the network (`ModelSEEDReaction`).
The three parallel collections `compounds`, `coefficients` and
`compartments` are modelled as lists; `compounds` is filled in by the
network builder after the reaction object is generated, exactly as in the
source, where it is `None` until `make_contigs_database_network` assigns it
(here: `[]` until assigned). -/
structure ModelSEEDReaction where
  modelseed_id : String
  modelseed_name : Option String
  kegg_id_aliases : List String
  ec_number_aliases : List String
  compounds : List ModelSEEDCompound
  coefficients : List Int
  compartments : List String
  reversibility : Bool
deriving DecidableEq, Repr

/-- Representation of a KEGG Ortholog in the network (`KO`).  `reactions`
maps a ModelSEED reaction ID to the reaction object the KO was linked to;
the two alias maps record, per linked reaction, the KEGG REACTION IDs and EC
numbers recorded for this KO. -/
structure KO where
  id : String
  name : String
  reactions : List (String × ModelSEEDReaction)
  kegg_reaction_aliases : List (String × List String)
  ec_number_aliases : List (String × List String)
deriving DecidableEq, Repr

/-- Representation of a gene (`Gene`).  `kos` stores the IDs of the matched
KO objects (the Python list stores references into `network.kos`; reference
identity is determined by the KO ID).  `e_values` stores the match scores;
their numeric value is irrelevant to every property below, so the literal
string from the annotation record is carried (`float(...)` conversion is a
pure relabelling for well-formed scores). -/
structure Gene where
  gcid : Int
  kos : List String
  e_values : List String
deriving DecidableEq, Repr

/-- The genomic reaction network (`GenomicNetwork`, with the inherited
`ReactionNetwork` fields flattened in).  The two reverse-index maps send an
alias to the list of ModelSEED reaction IDs resolved through it. -/
structure GenomicNetwork where
  genes : List (Int × Gene)
  kos : List (String × KO)
  reactions : List (String × ModelSEEDReaction)
  metabolites : List (String × ModelSEEDCompound)
  kegg_reactions : List (String × List String)
  ec_numbers : List (String × List String)
deriving DecidableEq, Repr

/-- The empty network a build run starts from. -/
def emptyNetwork : GenomicNetwork :=
  { genes := [], kos := [], reactions := [], metabolites := [],
    kegg_reactions := [], ec_numbers := [] }

/-- A row of the KO reference table (`ko_data.tsv`): the whitespace-joined
KEGG REACTION IDs and EC numbers associated with a KO, either possibly NaN. -/
structure KORow where
  reactions : Option String
  ec_numbers : Option String
deriving DecidableEq, Repr

/-- The fields of a ModelSEED reactions-table row that
`_get_modelseed_reaction` consumes.  NaN cells are `none`. -/
structure ReactionRow where
  id : Option String
  name : Option String
  kegg : Option String
  ec_numbers : Option String
  reversibility : Option String
  direction : Option String
  stoichiometry : Option String
deriving DecidableEq, Repr

/-- The fields of a ModelSEED compounds-table row that
`_get_modelseed_compound` consumes. -/
structure CompoundRow where
  name : Option String
  kegg : Option String
  formula : Option String
  charge : Option Int
deriving DecidableEq, Repr

/-- The reference tables a build consults: the KO table keyed by KO ID, the
two expanded reaction tables keyed by a single KEGG REACTION ID or EC number
per row (as set up by `ModelSEEDDatabase.__init__`), and the compounds table
keyed by compound ID. -/
structure Tables where
  koTable : List (String × KORow)
  keggTable : List (String × ReactionRow)
  ecTable : List (String × ReactionRow)
  compoundsTable : List (String × CompoundRow)
deriving DecidableEq, Repr

/-- A gene-KO annotation record from `gene_function_calls_dict`: one gene
caller ID with its KOfam tuple (accession, function name, e-value). -/
structure AnnotationRecord where
  gcid : Int
  ko_id : String
  ko_name : String
  e_value : String
deriving DecidableEq, Repr

/-- `ModelSEEDDatabase.compartment_ids`: compartment code 0 is cytosolic,
1 is extracellular; any other code raises an uncaught `KeyError`. -/
def compartment_ids (n : Nat) : Option String :=
  if n = 0 then some "c" else if n = 1 then some "e" else none

/-- KEGG REACTION ID aliases of a reaction row: the `; `-split `KEGG` cell,
empty when NaN. -/
def rowKeggAliases (row : ReactionRow) : List String :=
  match row.kegg with
  | none => []
  | some s => strSplitOn s "; "

/-- EC number aliases of a reaction row: the `|`-split `ec_numbers` cell,
empty when NaN. -/
def rowEcAliases (row : ReactionRow) : List String :=
  match row.ec_numbers with
  | none => []
  | some s => strSplitOn s "|"

/-- The term-splitting loop of `_get_modelseed_reaction`: split the raw
stoichiometry on `;`, each term on `:`, and return the parallel lists of
literal decimal coefficient strings, ModelSEED compound IDs, and compartment
tags mapped through `compartment_ids`, in original term order.  A term with
fewer than three `:`-fields raises `IndexError`; a non-numeric or unknown
compartment code raises `ValueError` / `KeyError`. -/
def parse_stoichiometry (stoichiometry : String) : Except String (List String × List String × List String) :=
  go (strSplitOn stoichiometry ";")
where
  go : List String → Except String (List String × List String × List String)
    | [] => .ok ([], [], [])
    | entry :: rest =>
        match strSplitOn entry ":" with
        | c :: cid :: comp :: _ =>
            match strToNat comp with
            | none => .error "ValueError: invalid compartment index"
            | some n =>
                match compartment_ids n with
                | none => .error "KeyError: unknown compartment"
                | some tag =>
                    match go rest with
                    | .error e => .error e
                    | .ok (cs, cids, tags) => .ok (c :: cs, cid :: cids, tag :: tags)
        | _ => .error "IndexError: malformed stoichiometry entry"

/-- Embedding of `Constructor._get_modelseed_reaction`.  A row whose
stoichiometry cell is NaN yields `none` (the reaction is a defined skip);
a missing `id`, `reversibility` or `direction` cell raises `ConfigError`.
Otherwise the reaction object is generated without its compound objects
(`compounds` left empty for the caller to fill), together with the list of
compound IDs of its stoichiometry terms in term order.  When the written
direction contradicts the reversibility arrow, every coefficient is negated. -/
def get_modelseed_reaction (row : ReactionRow) : Except String (Option (ModelSEEDReaction × List String)) :=
  match row.stoichiometry with
  | none => .ok none
  | some stoichiometry =>
      match row.id with
      | none => .error "ConfigError: reaction row lacks an id"
      | some modelseed_id =>
          match row.reversibility with
          | none => .error "ConfigError: reaction row lacks a reversibility value"
          | some rev =>
              match parse_stoichiometry stoichiometry with
              | .error e => .error e
              | .ok (decimal_reaction_coefficients, modelseed_compound_ids, compartments) =>
                  match to_lcm_denominator decimal_reaction_coefficients with
                  | .error e => .error e
                  | .ok reaction_coefficients =>
                      match row.direction with
                      | none => .error "ConfigError: reaction row lacks a direction value"
                      | some direction =>
                          let signed_coefficients :=
                            if (direction = ">" ∧ rev = "<") ∨ (direction = "<" ∧ rev = ">")
                            then reaction_coefficients.map (fun c => -c)
                            else reaction_coefficients
                          .ok (some
                            ({ modelseed_id := modelseed_id,
                               modelseed_name := row.name,
                               kegg_id_aliases := rowKeggAliases row,
                               ec_number_aliases := rowEcAliases row,
                               compounds := [],
                               coefficients := signed_coefficients,
                               compartments := compartments,
                               reversibility := if rev = "=" ∨ rev = "?" then true else false },
                             modelseed_compound_ids))

/-- Embedding of `Constructor._get_modelseed_compound`: a compound without a
formula has a null charge; a compound with a formula but no recorded charge
raises `ConfigError`. -/
def get_modelseed_compound (cid : String) (row : CompoundRow) : Except String ModelSEEDCompound :=
  let kegg_id_aliases :=
    match row.kegg with
    | none => []
    | some s => strSplitOn s "; "
  match row.formula with
  | none =>
      .ok { modelseed_id := cid, modelseed_name := row.name,
            kegg_id_aliases := kegg_id_aliases, charge := none, formula := none }
  | some formula =>
      match row.charge with
      | none => .error "ConfigError: compound with formula lacks a charge"
      | some charge =>
          .ok { modelseed_id := cid, modelseed_name := row.name,
                kegg_id_aliases := kegg_id_aliases, charge := some charge, formula := some formula }

/-- The KEGG REACTION IDs of a KO from the KO reference table: the
whitespace-split `reactions` cell, empty for a NaN cell or an absent KO. -/
def koAliasKegg (t : Tables) (kid : String) : List String :=
  match alookup kid t.koTable with
  | none => []
  | some info =>
      match info.reactions with
      | none => []
      | some s => pySplit s

/-- The EC numbers of a KO from the KO reference table: the whitespace-split
`ec_numbers` cell, empty for a NaN cell or an absent KO. -/
def koAliasEc (t : Tables) (kid : String) : List String :=
  match alookup kid t.koTable with
  | none => []
  | some info =>
      match info.ec_numbers with
      | none => []
      | some s => pySplit s

/-- The inner loop of the seen-KEGG-alias branch (lines 652-657): link the KO
to every ModelSEED reaction already registered under the alias, recording the
intersections of the full KO alias lists with the true alias lists of the
reaction.  A reaction ID in a reverse index with no reaction object would
raise `KeyError`. -/
def link_seen_kegg (s : GenomicNetwork) (koKeggIds koEcs : List String) :
    List String → KO → Except String KO
  | [], ko => .ok ko
  | rid :: rest, ko =>
      match alookup rid s.reactions with
      | none => .error "KeyError: reaction missing from network.reactions"
      | some reaction =>
          link_seen_kegg s koKeggIds koEcs rest
            { ko with
              reactions := ainsert rid reaction ko.reactions,
              kegg_reaction_aliases :=
                ainsert rid (setInter koKeggIds reaction.kegg_id_aliases) ko.kegg_reaction_aliases,
              ec_number_aliases :=
                ainsert rid (setInter koEcs reaction.ec_number_aliases) ko.ec_number_aliases }

/-- The inner loop of the seen-EC-alias branch (lines 668-677), including the
redundancy guard of line 670, which tests membership of the ModelSEED
reaction ID in the reaction's EC number alias list exactly as written in the
source. -/
def link_seen_ec (s : GenomicNetwork) (koKeggIds koEcs : List String) :
    List String → KO → Except String KO
  | [], ko => .ok ko
  | rid :: rest, ko =>
      match alookup rid s.reactions with
      | none => .error "KeyError: reaction missing from network.reactions"
      | some reaction =>
          if rid ∈ reaction.ec_number_aliases then
            link_seen_ec s koKeggIds koEcs rest ko
          else
            link_seen_ec s koKeggIds koEcs rest
              { ko with
                reactions := ainsert rid reaction ko.reactions,
                kegg_reaction_aliases :=
                  ainsert rid (setInter koKeggIds reaction.kegg_id_aliases) ko.kegg_reaction_aliases,
                ec_number_aliases :=
                  ainsert rid (setInter koEcs reaction.ec_number_aliases) ko.ec_number_aliases }

/-- The KEGG REACTION ID partition loop (lines 645-657): an alias not yet in
the reverse index is recorded as unadded and given an empty reverse-index
entry; an alias already present links the KO to its registered reactions. -/
def process_kegg_ids (koKeggIds koEcs : List String) :
    List String → GenomicNetwork → KO → List String →
    Except String (GenomicNetwork × KO × List String)
  | [], s, ko, unadded => .ok (s, ko, unadded)
  | kid :: rest, s, ko, unadded =>
      match alookup kid s.kegg_reactions with
      | none =>
          process_kegg_ids koKeggIds koEcs rest
            { s with kegg_reactions := ainsert kid ([] : List String) s.kegg_reactions }
            ko (unadded ++ [kid])
      | some rids =>
          match link_seen_kegg s koKeggIds koEcs rids ko with
          | .error e => .error e
          | .ok ko1 => process_kegg_ids koKeggIds koEcs rest s ko1 unadded

/-- The EC number partition loop (lines 661-677), the mirror of
`process_kegg_ids` over the EC reverse index. -/
def process_ec_numbers (koKeggIds koEcs : List String) :
    List String → GenomicNetwork → KO → List String →
    Except String (GenomicNetwork × KO × List String)
  | [], s, ko, unadded => .ok (s, ko, unadded)
  | ec :: rest, s, ko, unadded =>
      match alookup ec s.ec_numbers with
      | none =>
          process_ec_numbers koKeggIds koEcs rest
            { s with ec_numbers := ainsert ec ([] : List String) s.ec_numbers }
            ko (unadded ++ [ec])
      | some rids =>
          match link_seen_ec s koKeggIds koEcs rids ko with
          | .error e => .error e
          | .ok ko1 => process_ec_numbers koKeggIds koEcs rest s ko1 unadded

/-- Collection of reference rows for unadded aliases (lines 687-711): filter
an expanded reaction table to the rows whose single alias is in the unadded
list, preserving row order, and deduplicate by the row's reaction ID against
the accumulator (rows for a reaction ID already collected are skipped). -/
def collect_reactions_data :
    List (String × ReactionRow) → List String → List (Option String × ReactionRow) →
    List (Option String × ReactionRow)
  | [], _, acc => acc
  | (aliasId, row) :: rest, unadded, acc =>
      if aliasId ∈ unadded then
        if row.id ∈ acc.map Prod.fst then collect_reactions_data rest unadded acc
        else collect_reactions_data rest unadded (acc ++ [(row.id, row)])
      else collect_reactions_data rest unadded acc

/-- The first compound-resolution loop (lines 739-746): compounds already in
`network.metabolites` are appended to the reaction compound list immediately,
the others are collected, keeping each sublist in term order. -/
def resolve_compounds_seen (metabolites : List (String × ModelSEEDCompound)) :
    List String → List ModelSEEDCompound × List String
  | [] => ([], [])
  | cid :: rest =>
      let (rc, un) := resolve_compounds_seen metabolites rest
      match alookup cid metabolites with
      | some c => (c :: rc, un)
      | none => (rc, cid :: un)

/-- The second compound-resolution loop (lines 749-762): generate a compound
object for every unadded compound ID, appending it to the reaction compound
list and registering it in `network.metabolites`; a compound ID with no
compounds-table row raises `ConfigError`. -/
def create_compounds (t : Tables) :
    List String → GenomicNetwork → List ModelSEEDCompound →
    Except String (GenomicNetwork × List ModelSEEDCompound)
  | [], s, rc => .ok (s, rc)
  | cid :: rest, s, rc =>
      match alookup cid t.compoundsTable with
      | none => .error "ConfigError: compound row expected but not found"
      | some crow =>
          match get_modelseed_compound cid crow with
          | .error e => .error e
          | .ok compound =>
              create_compounds t rest
                { s with metabolites := ainsert cid compound s.metabolites }
                (rc ++ [compound])

/-- Appending a newly generated reaction ID to the reverse-index entries of
its aliases (lines 732-735); the entries were created by the partition loops,
so a missing entry would raise `KeyError`. -/
def append_rev_index (rid : String) :
    List String → List (String × List String) → Except String (List (String × List String))
  | [], m => .ok m
  | a :: rest, m =>
      match alookup a m with
      | none => .error "KeyError: reverse index entry missing"
      | some l => append_rev_index rid rest (ainsert a (l ++ [rid]) m)

/-- The new-reaction generation loop (lines 717-763): for every collected
reference row, generate the reaction (skipping rows without a stoichiometry),
record for the KO the intersections of the unadded alias lists with the true
alias lists of the reaction, register the reaction, extend both reverse
indices, and resolve its compounds (already-seen ones first, then newly
generated ones), the finished compound list becoming `reaction.compounds`.
In the source the reaction object is stored and only then mutated with its
compound tuple; storing the finished value gives the same final state. -/
def create_reactions (t : Tables) (unaddedKegg unaddedEc : List String) :
    List (Option String × ReactionRow) → GenomicNetwork → KO →
    Except String (GenomicNetwork × KO)
  | [], s, ko => .ok (s, ko)
  | (_, row) :: rest, s, ko =>
      match get_modelseed_reaction row with
      | .error e => .error e
      | .ok none => create_reactions t unaddedKegg unaddedEc rest s ko
      | .ok (some (reaction0, modelseed_compound_ids)) =>
          let rid := reaction0.modelseed_id
          let aliased_kegg := setInter unaddedKegg reaction0.kegg_id_aliases
          let aliased_ec := setInter unaddedEc reaction0.ec_number_aliases
          let seen := resolve_compounds_seen s.metabolites modelseed_compound_ids
          match create_compounds t seen.2 s seen.1 with
          | .error e => .error e
          | .ok (s1, reaction_compounds) =>
              let reaction := { reaction0 with compounds := reaction_compounds }
              let ko1 :=
                { ko with
                  reactions := ainsert rid reaction ko.reactions,
                  kegg_reaction_aliases := ainsert rid aliased_kegg ko.kegg_reaction_aliases,
                  ec_number_aliases := ainsert rid aliased_ec ko.ec_number_aliases }
              let s2 := { s1 with reactions := ainsert rid reaction s1.reactions }
              match append_rev_index rid aliased_kegg s2.kegg_reactions with
              | .error e => .error e
              | .ok kr =>
                  match append_rev_index rid aliased_ec s2.ec_numbers with
                  | .error e => .error e
                  | .ok en =>
                      create_reactions t unaddedKegg unaddedEc rest
                        { s2 with kegg_reactions := kr, ec_numbers := en } ko1

/-- The fresh KO object created for a newly encountered KO ID (lines
612-614). -/
def freshKO (r : AnnotationRecord) : KO :=
  { id := r.ko_id, name := r.ko_name, reactions := [],
    kegg_reaction_aliases := [], ec_number_aliases := [] }

/-- The deduplicated reference-row collection for the unadded aliases of a KO
(lines 687-711): rows for unadded KEGG REACTION IDs first, then rows for
unadded EC numbers, each query skipped when its unadded list is empty. -/
def collected_reactions_data (t : Tables) (unadded_kegg unadded_ec : List String) :
    List (Option String × ReactionRow) :=
  if unadded_ec = [] then
    (if unadded_kegg = [] then [] else collect_reactions_data t.keggTable unadded_kegg [])
  else
    collect_reactions_data t.ecTable unadded_ec
      (if unadded_kegg = [] then [] else collect_reactions_data t.keggTable unadded_kegg [])

/-- Processing of one gene-KO annotation record (lines 590-763 of
`make_contigs_database_network`).  The gene object is resolved or created and
receives exactly one e-value and one KO reference; a KO already in the
network is reused without re-deriving its reactions; a new KO is registered,
its aliases are looked up (an absent KO is appended to the undefined list and
skipped), the aliases are partitioned into seen and unadded, and unadded
aliases drive generation of new reactions.  The KO value is written back at
each exit point after its last mutation, matching the shared-object
semantics of the source. -/
def processRecord (t : Tables) (network : GenomicNetwork) (undefined_ko_ids : List String)
    (r : AnnotationRecord) : Except String (GenomicNetwork × List String) :=
  let gene0 :=
    match alookup r.gcid network.genes with
    | some g => g
    | none => { gcid := r.gcid, kos := [], e_values := [] }
  let gene1 := { gene0 with e_values := gene0.e_values ++ [r.e_value] }
  match alookup r.ko_id network.kos with
  | some _ =>
      let gene2 := { gene1 with kos := gene1.kos ++ [r.ko_id] }
      .ok ({ network with genes := ainsert r.gcid gene2 network.genes }, undefined_ko_ids)
  | none =>
      let gene2 := { gene1 with kos := gene1.kos ++ [r.ko_id] }
      let network1 := { network with genes := ainsert r.gcid gene2 network.genes }
      let ko0 := freshKO r
      let network2 := { network1 with kos := ainsert r.ko_id ko0 network1.kos }
      match alookup r.ko_id t.koTable with
      | none => .ok (network2, undefined_ko_ids ++ [r.ko_id])
      | some _ =>
          let ko_kegg_reaction_ids := koAliasKegg t r.ko_id
          let ko_ec_numbers := koAliasEc t r.ko_id
          if ko_kegg_reaction_ids = [] ∧ ko_ec_numbers = [] then .ok (network2, undefined_ko_ids)
          else
            match process_kegg_ids ko_kegg_reaction_ids ko_ec_numbers ko_kegg_reaction_ids
                network2 ko0 [] with
            | .error e => .error e
            | .ok (network3, ko1, unadded_kegg) =>
                match process_ec_numbers ko_kegg_reaction_ids ko_ec_numbers ko_ec_numbers
                    network3 ko1 [] with
                | .error e => .error e
                | .ok (network4, ko2, unadded_ec) =>
                    if unadded_kegg = [] ∧ unadded_ec = [] then
                      .ok ({ network4 with kos := ainsert r.ko_id ko2 network4.kos },
                           undefined_ko_ids)
                    else
                      let data_all := collected_reactions_data t unadded_kegg unadded_ec
                      if data_all = [] then
                        .ok ({ network4 with kos := ainsert r.ko_id ko2 network4.kos },
                             undefined_ko_ids)
                      else
                        match create_reactions t unadded_kegg unadded_ec data_all network4 ko2 with
                        | .error e => .error e
                        | .ok (network5, ko3) =>
                            .ok ({ network5 with kos := ainsert r.ko_id ko3 network5.kos },
                                 undefined_ko_ids)

/-- Sequential processing of the annotation record stream. -/
def runRecords (t : Tables) :
    List AnnotationRecord → GenomicNetwork → List String →
    Except String (GenomicNetwork × List String)
  | [], network, undefined_ko_ids => .ok (network, undefined_ko_ids)
  | r :: rest, network, undefined_ko_ids =>
      match processRecord t network undefined_ko_ids r with
      | .error e => .error e
      | .ok (network1, undefined1) => runRecords t rest network1 undefined1

/-- Embedding of the graph-construction core of
`Constructor.make_contigs_database_network`: stream the gene-KO annotation
records into an empty network, returning the finished network together with
the undefined-KO list reported at the end of the run.  Storage, progress
display and summary statistics are outside the constructed network and are
not modelled. -/
def make_contigs_database_network (t : Tables) (records : List AnnotationRecord) :
    Except String (GenomicNetwork × List String) :=
  runRecords t records emptyNetwork []

/-- One sortable KO annotation tuple:
(`str(gcid)`, KO ID, KO name, `str(e_value)`). -/
abbrev KOAnnotation := String × String × String × String

/-- The Python sort key `lambda x: (x[0], x[1])` as a relation: lexicographic
comparison on the stringified gene caller ID, then the KO ID. -/
def keyLe (a b : KOAnnotation) : Prop :=
  a.1 < b.1 ∨ (a.1 = b.1 ∧ a.2.1 ≤ b.2.1)

instance : DecidableRel keyLe := fun a b =>
  inferInstanceAs (Decidable (a.1 < b.1 ∨ (a.1 = b.1 ∧ a.2.1 ≤ b.2.1)))

instance : IsTotal KOAnnotation keyLe where
  total a b := by
    rcases lt_trichotomy a.1 b.1 with h | h | h
    · exact Or.inl (Or.inl h)
    · rcases le_total a.2.1 b.2.1 with h2 | h2
      · exact Or.inl (Or.inr ⟨h, h2⟩)
      · exact Or.inr (Or.inr ⟨h.symm, h2⟩)
    · exact Or.inr (Or.inl h)

instance : IsTrans KOAnnotation keyLe where
  trans a b c hab hbc := by
    rcases hab with hab | ⟨hab, hab2⟩
    · rcases hbc with hbc | ⟨hbc, _⟩
      · exact Or.inl (hab.trans hbc)
      · exact Or.inl (hbc ▸ hab)
    · rcases hbc with hbc | ⟨hbc, hbc2⟩
      · exact Or.inl (hab ▸ hbc)
      · exact Or.inr ⟨hab.trans hbc, hab2.trans hbc2⟩

/-- Embedding of `Constructor.hash_ko_annotations` up to the final SHA-1
digest: collect one `(str(gcid), ko_id, ko_name, str(e_value))` tuple per
annotation record, sort by the key `(x[0], x[1])`, and concatenate all fields
of all tuples with no separator.  The source then applies
`hashlib.sha1(...).hexdigest()`, a deterministic pure function of this
string, so two annotation streams receive equal digests exactly when they
produce equal concatenations here.  The e-value field carries the rendering
`str(e_value)` of the stored score. -/
def hash_ko_annotations (gene_function_calls : List AnnotationRecord) : String :=
  let ko_annotations : List KOAnnotation :=
    gene_function_calls.map (fun r => (toString r.gcid, r.ko_id, r.ko_name, r.e_value))
  let sorted := List.insertionSort keyLe ko_annotations
  sorted.foldl (fun acc a => acc ++ (a.1 ++ a.2.1 ++ a.2.2.1 ++ a.2.2.2)) ""

/-- Default values used to extract components from concrete runs. -/
def defaultKO : KO :=
  { id := "", name := "", reactions := [], kegg_reaction_aliases := [], ec_number_aliases := [] }

/-- Default gene for extraction from concrete runs. -/
def defaultGene : Gene := { gcid := 0, kos := [], e_values := [] }

/-- A compound row with no optional data (formula absent, so charge may be
absent as well). -/
def bareCompoundRow : CompoundRow := { name := none, kegg := none, formula := none, charge := none }

/-- Concrete reaction row for the compound-ordering run: a reaction over the
single compound `cpdX`. -/
def c1RowA : ReactionRow :=
  { id := some "rxnA", name := none, kegg := some "R00001", ec_numbers := none,
    reversibility := some "=", direction := some "=", stoichiometry := some "1:cpdX:0" }

/-- Concrete reaction row for the compound-ordering run: a reaction whose
first stoichiometry term introduces the new compound `cpdY` and whose second
term reuses `cpdX`. -/
def c1RowB : ReactionRow :=
  { id := some "rxnB", name := none, kegg := some "R00002", ec_numbers := none,
    reversibility := some "=", direction := some "=", stoichiometry := some "-1:cpdY:0;1:cpdX:0" }

/-- Tables for the compound-ordering run. -/
def c1Tables : Tables :=
  { koTable := [("K00001", { reactions := some "R00001", ec_numbers := none }),
                ("K00002", { reactions := some "R00002", ec_numbers := none })],
    keggTable := [("R00001", c1RowA), ("R00002", c1RowB)],
    ecTable := [],
    compoundsTable := [("cpdX", bareCompoundRow), ("cpdY", bareCompoundRow)] }

/-- Annotation stream for the compound-ordering run: one gene per KO, so that
`rxnA` is generated first and `cpdX` is already in the network when `rxnB`
is generated. -/
def c1Records : List AnnotationRecord :=
  [{ gcid := 1, ko_id := "K00001", ko_name := "n1", e_value := "0.0" },
   { gcid := 2, ko_id := "K00002", ko_name := "n2", e_value := "0.0" }]

/-- The network produced by the compound-ordering run. -/
def c1Net : GenomicNetwork :=
  ((make_contigs_database_network c1Tables c1Records).toOption.getD (emptyNetwork, [])).1

/-- The `rxnB` reaction object of the compound-ordering run. -/
def c1RxnB : ModelSEEDReaction :=
  (alookup "rxnB" c1Net.reactions).getD
    { modelseed_id := "", modelseed_name := none, kegg_id_aliases := [], ec_number_aliases := [],
      compounds := [], coefficients := [], compartments := [], reversibility := false }

/-- The reaction row shared by two alias routes for the alias-overwrite run:
`rxnA` carries both KEGG aliases `R00001` and `R00002`. -/
def c4RowA : ReactionRow :=
  { id := some "rxnA", name := none, kegg := some "R00001; R00002", ec_numbers := none,
    reversibility := some "=", direction := some "=", stoichiometry := some "1:cpd00001:0" }

/-- Tables for the alias-overwrite run: the expanded KEGG table has one row
of `rxnA` per alias, exactly as `ModelSEEDDatabase.__init__` expands the
`KEGG` cell `R00001; R00002`. -/
def c4Tables : Tables :=
  { koTable := [("K00001", { reactions := some "R00001", ec_numbers := none }),
                ("K00002", { reactions := some "R00001 R00002", ec_numbers := none })],
    keggTable := [("R00001", c4RowA), ("R00002", c4RowA)],
    ecTable := [],
    compoundsTable := [("cpd00001", bareCompoundRow)] }

/-- Annotation stream for the alias-overwrite run: `K00001` first generates
`rxnA` through `R00001`; `K00002` then reaches `rxnA` both through the seen
alias `R00001` and the unadded alias `R00002`. -/
def c4Records : List AnnotationRecord :=
  [{ gcid := 1, ko_id := "K00001", ko_name := "n1", e_value := "0.0" },
   { gcid := 2, ko_id := "K00002", ko_name := "n2", e_value := "0.0" }]

/-- The network produced by the alias-overwrite run. -/
def c4Net : GenomicNetwork :=
  ((make_contigs_database_network c4Tables c4Records).toOption.getD (emptyNetwork, [])).1

/-- The `K00002` KO object of the alias-overwrite run. -/
def c4KO2 : KO := (alookup "K00002" c4Net.kos).getD defaultKO

/-- The reaction row for the shared-reaction run: `rxnB` is reachable through
the KEGG alias `R00001` and the EC alias `1.1.1.1`. -/
def c9RowB : ReactionRow :=
  { id := some "rxnB", name := none, kegg := some "R00001", ec_numbers := some "1.1.1.1",
    reversibility := some "=", direction := some "=", stoichiometry := some "1:cpd00001:0" }

/-- Tables for the shared-reaction run. -/
def c9Tables : Tables :=
  { koTable := [("K00001", { reactions := some "R00001", ec_numbers := none }),
                ("K00002", { reactions := none, ec_numbers := some "1.1.1.1" })],
    keggTable := [("R00001", c9RowB)],
    ecTable := [("1.1.1.1", c9RowB)],
    compoundsTable := [("cpd00001", bareCompoundRow)] }

/-- Annotation stream for the shared-reaction run: `K00001` reaches the
reaction through the KEGG alias, a later `K00002` through the EC alias. -/
def c9Records : List AnnotationRecord :=
  [{ gcid := 1, ko_id := "K00001", ko_name := "n1", e_value := "0.0" },
   { gcid := 2, ko_id := "K00002", ko_name := "n2", e_value := "0.0" }]

/-- The network produced by the shared-reaction run. -/
def c9Net : GenomicNetwork :=
  ((make_contigs_database_network c9Tables c9Records).toOption.getD (emptyNetwork, [])).1

/-- A reaction row without a stoichiometry cell, reachable through the KEGG
alias `R00404`, used for the missing-stoichiometry and undefined-KO witness
run. -/
def exRowMissing : ReactionRow :=
  { id := some "rxnC", name := none, kegg := some "R00404", ec_numbers := none,
    reversibility := some "=", direction := some "=", stoichiometry := none }

/-- Tables for the witness run: a normal reaction (`rxnB`, both alias kinds),
a stoichiometry-less reaction (`rxnC`), a KO with no aliases, and an
annotation KO absent from the KO table. -/
def exTables : Tables :=
  { koTable := [("K00001", { reactions := some "R00001", ec_numbers := none }),
                ("K00002", { reactions := none, ec_numbers := some "1.1.1.1" }),
                ("K00003", { reactions := some "R00404", ec_numbers := none }),
                ("K00005", { reactions := none, ec_numbers := none })],
    keggTable := [("R00001", c9RowB), ("R00404", exRowMissing)],
    ecTable := [("1.1.1.1", c9RowB)],
    compoundsTable := [("cpd00001", bareCompoundRow)] }

/-- Annotation stream for the witness run; `K00404` has no KO-table entry. -/
def exRecords : List AnnotationRecord :=
  [{ gcid := 1, ko_id := "K00001", ko_name := "n1", e_value := "1e-10" },
   { gcid := 2, ko_id := "K00002", ko_name := "n2", e_value := "0.001" },
   { gcid := 3, ko_id := "K00003", ko_name := "n3", e_value := "0.0" },
   { gcid := 4, ko_id := "K00404", ko_name := "n4", e_value := "0.5" },
   { gcid := 5, ko_id := "K00005", ko_name := "n5", e_value := "2e-30" }]

/-- The network produced by the witness run. -/
def exNet : GenomicNetwork :=
  ((make_contigs_database_network exTables exRecords).toOption.getD (emptyNetwork, [])).1

/-- The undefined-KO list produced by the witness run. -/
def exUndefined : List String :=
  ((make_contigs_database_network exTables exRecords).toOption.getD (emptyNetwork, [])).2

/-- The singleton annotation stream whose tuple reads
(1, K00001, name, 0.0). -/
def c5RecordsA : List AnnotationRecord :=
  [{ gcid := 1, ko_id := "K00001", ko_name := "name", e_value := "0.0" }]

/-- A different singleton annotation stream whose concatenated fields
coincide with those of `c5RecordsA`: the final character of the KO ID has
moved into the KO name. -/
def c5RecordsB : List AnnotationRecord :=
  [{ gcid := 1, ko_id := "K00001n", ko_name := "ame", e_value := "0.0" }]

/-- Reaction row for the direction-contradiction scenario of the spec:
direction `<` (sic: the row direction is `>` and the reversibility `<`). -/
def c6Row : ReactionRow :=
  { id := some "rxn1", name := none, kegg := none, ec_numbers := none,
    reversibility := some "<", direction := some ">",
    stoichiometry := some "-1:cpd00001:0;1:cpd00002:0;1:cpd00003:1" }

/-- Coherence of the expanded reference tables: any two rows carrying the
same reaction ID agree on the whole row.  This holds of the real tables by
construction: `ModelSEEDDatabase.__init__` expands each row of one reactions
table into one row per alias, so all rows with one ID are copies of the same
source row (the per-row alias key is not part of `ReactionRow`). -/
def TablesCoherent (t : Tables) : Prop :=
  ∀ p ∈ t.keggTable ++ t.ecTable, ∀ q ∈ t.keggTable ++ t.ecTable,
    ((p.2).id).isSome = true → (p.2).id = (q.2).id → p.2 = q.2

/-- Every reaction registered in the network stems from a reference-table
row with its ID, and carries exactly the alias lists of that row. -/
def ReactionsFromTables (t : Tables) (s : GenomicNetwork) : Prop :=
  ∀ p ∈ s.reactions, ∃ q ∈ t.keggTable ++ t.ecTable,
    (q.2).id = some p.1 ∧ (p.2).modelseed_id = p.1 ∧
    (p.2).kegg_id_aliases = rowKeggAliases q.2 ∧
    (p.2).ec_number_aliases = rowEcAliases q.2

/-- Soundness of a reverse index: every reaction ID listed under an alias
belongs to a registered reaction whose true alias list contains the alias. -/
def RevIndexSound (reactions : List (String × ModelSEEDReaction))
    (idx : List (String × List String))
    (aliasesOf : ModelSEEDReaction → List String) : Prop :=
  ∀ p ∈ idx, ∀ rid ∈ p.2, ∃ rx, alookup rid reactions = some rx ∧ p.1 ∈ aliasesOf rx

/-- Soundness of the per-KO alias recording: every recorded alias tuple is a
subset of the full alias list of the KO (from the KO reference table) and a
subset of the true alias list of the reaction object the KO is linked to
under the same reaction ID. -/
def KORecordingSound (t : Tables) (ko : KO) : Prop :=
  (∀ p ∈ ko.kegg_reaction_aliases,
     (∀ x ∈ p.2, x ∈ koAliasKegg t ko.id) ∧
     ∃ rx, alookup p.1 ko.reactions = some rx ∧ ∀ x ∈ p.2, x ∈ rx.kegg_id_aliases) ∧
  (∀ p ∈ ko.ec_number_aliases,
     (∀ x ∈ p.2, x ∈ koAliasEc t ko.id) ∧
     ∃ rx, alookup p.1 ko.reactions = some rx ∧ ∀ x ∈ p.2, x ∈ rx.ec_number_aliases)

/-- Every KO of the network is stored under its own ID and has sound alias
recordings. -/
def NetworkKOsSound (t : Tables) (s : GenomicNetwork) : Prop :=
  ∀ p ∈ s.kos, (p.2).id = p.1 ∧ KORecordingSound t p.2

/-- A reaction ID is completely absent from the network: no reaction entry
and no occurrence in either reverse index. -/
def RidExcluded (rid : String) (s : GenomicNetwork) : Prop :=
  alookup rid s.reactions = none ∧
  (∀ p ∈ s.kegg_reactions, rid ∉ p.2) ∧
  (∀ p ∈ s.ec_numbers, rid ∉ p.2)

/-- Every gene of the network has KO and e-value lists of equal length. -/
def GeneListsParallel (s : GenomicNetwork) : Prop :=
  ∀ p ∈ s.genes, (p.2).kos.length = (p.2).e_values.length

/-- The combined network soundness invariant used for the reverse-index
claims: registered reactions stem from table rows, and both reverse indices
only list reaction IDs whose registered reaction really carries the alias. -/
def NetSound (t : Tables) (s : GenomicNetwork) : Prop :=
  ReactionsFromTables t s ∧
  RevIndexSound s.reactions s.kegg_reactions (fun rx => rx.kegg_id_aliases) ∧
  RevIndexSound s.reactions s.ec_numbers (fun rx => rx.ec_number_aliases)

theorem alookup_eq_none_iff {κ α : Type} [DecidableEq κ] (k : κ) (l : List (κ × α)) :
    alookup k l = none ↔ ∀ p ∈ l, p.1 ≠ k := by
  induction l with
  | nil => simp [alookup]
  | cons p rest ih =>
      obtain ⟨a, b⟩ := p
      by_cases hp : a = k
      · simp [alookup, hp]
      · simp [alookup, hp, ih]

theorem alookup_mem {κ α : Type} [DecidableEq κ] {k : κ} {v : α} {l : List (κ × α)}
    (h : alookup k l = some v) : (k, v) ∈ l := by
  induction l with
  | nil => simp [alookup] at h
  | cons p rest ih =>
      obtain ⟨a, b⟩ := p
      by_cases hp : a = k
      · simp only [alookup, hp, if_true, Option.some.injEq] at h
        rw [hp, h]
        exact List.mem_cons_self _ _
      · simp only [alookup, hp, if_false] at h
        exact List.mem_cons_of_mem _ (ih h)

theorem alookup_map_replace_self {κ α : Type} [DecidableEq κ] {k : κ} (v : α)
    {l : List (κ × α)} (h : (alookup k l).isSome) :
    alookup k (l.map (fun p => if p.1 = k then (k, v) else p)) = some v := by
  induction l with
  | nil => simp [alookup] at h
  | cons p rest ih =>
      obtain ⟨a, b⟩ := p
      by_cases hp : a = k
      · simp [alookup, hp]
      · simp only [alookup, hp, if_false] at h
        simp [alookup, hp, ih h]

theorem alookup_map_replace_ne {κ α : Type} [DecidableEq κ] {k k' : κ} (v : α)
    (l : List (κ × α)) (h : k' ≠ k) :
    alookup k' (l.map (fun p => if p.1 = k then (k, v) else p)) = alookup k' l := by
  induction l with
  | nil => simp [alookup]
  | cons p rest ih =>
      obtain ⟨a, b⟩ := p
      by_cases hp : a = k
      · have hak : a ≠ k' := by rw [hp]; exact fun hh => h hh.symm
        have hk : k ≠ k' := fun hh => h hh.symm
        simp [alookup, hp, hak, hk, ih]
      · by_cases hak : a = k'
        · simp [alookup, hp, hak, h, ih]
        · simp [alookup, hp, hak, ih]

theorem alookup_append_single_self {κ α : Type} [DecidableEq κ] {k : κ} (v : α)
    {l : List (κ × α)} (h : alookup k l = none) :
    alookup k (l ++ [(k, v)]) = some v := by
  induction l with
  | nil => simp [alookup]
  | cons p rest ih =>
      obtain ⟨a, b⟩ := p
      by_cases hp : a = k
      · simp [alookup, hp] at h
      · simp only [alookup, hp, if_false] at h
        simp [alookup, hp, ih h]

theorem alookup_append_single_ne {κ α : Type} [DecidableEq κ] {k k' : κ} (v : α)
    (l : List (κ × α)) (h : k' ≠ k) :
    alookup k' (l ++ [(k, v)]) = alookup k' l := by
  induction l with
  | nil => simp [alookup, Ne.symm h]
  | cons p rest ih =>
      obtain ⟨a, b⟩ := p
      by_cases hak : a = k'
      · simp [alookup, hak]
      · simp [alookup, hak, ih]

theorem alookup_ainsert_self {κ α : Type} [DecidableEq κ] (k : κ) (v : α) (l : List (κ × α)) :
    alookup k (ainsert k v l) = some v := by
  unfold ainsert
  by_cases h : (alookup k l).isSome
  · simp only [h, if_true]
    exact alookup_map_replace_self v h
  · simp only [h, if_false]
    apply alookup_append_single_self
    cases hl : alookup k l with
    | none => rfl
    | some w => rw [hl] at h; simp at h

theorem alookup_ainsert_ne {κ α : Type} [DecidableEq κ] {k k' : κ} (v : α) (l : List (κ × α))
    (h : k' ≠ k) : alookup k' (ainsert k v l) = alookup k' l := by
  unfold ainsert
  by_cases hs : (alookup k l).isSome
  · simp only [hs, if_true]
    exact alookup_map_replace_ne v l h
  · simp only [hs, if_false]
    exact alookup_append_single_ne v l h

theorem mem_ainsert {κ α : Type} [DecidableEq κ] {k : κ} {v : α} {l : List (κ × α)} {p : κ × α}
    (h : p ∈ ainsert k v l) : p = (k, v) ∨ (p ∈ l ∧ p.1 ≠ k) := by
  unfold ainsert at h
  by_cases hs : (alookup k l).isSome
  · simp only [hs, if_true] at h
    obtain ⟨q, hq, hpq⟩ := List.mem_map.mp h
    by_cases hqk : q.1 = k
    · left
      rw [← hpq]
      simp [hqk]
    · right
      simp only [hqk, if_false] at hpq
      exact ⟨hpq ▸ hq, hpq ▸ hqk⟩
  · simp only [hs, if_false] at h
    rcases List.mem_append.mp h with h1 | h1
    · right
      refine ⟨h1, ?_⟩
      have hn : alookup k l = none := by
        cases hl : alookup k l with
        | none => rfl
        | some w => rw [hl] at hs; simp at hs
      exact (alookup_eq_none_iff k l).mp hn p h1
    · left
      simpa using h1

theorem alookup_isSome_ainsert {κ α : Type} [DecidableEq κ] {k' : κ} (k : κ) (v : α)
    (l : List (κ × α)) (h : (alookup k' l).isSome) : (alookup k' (ainsert k v l)).isSome := by
  by_cases hk : k' = k
  · rw [hk, alookup_ainsert_self]
    rfl
  · rw [alookup_ainsert_ne v l hk]
    exact h

theorem setInter_mem_left {x : String} {xs ys : List String} (h : x ∈ setInter xs ys) :
    x ∈ xs := by
  simp only [setInter, List.mem_filter, List.mem_dedup] at h
  exact h.1

theorem setInter_mem_right {x : String} {xs ys : List String} (h : x ∈ setInter xs ys) :
    x ∈ ys := by
  simp only [setInter, List.mem_filter, List.mem_dedup, decide_eq_true_eq] at h
  exact h.2

theorem foldl_lcm_dvd_init (ds : List Nat) : ∀ b : Nat, b ∣ ds.foldl Nat.lcm b := by
  induction ds with
  | nil => intro b; exact dvd_refl b
  | cons d ds ih =>
      intro b
      exact dvd_trans (Nat.dvd_lcm_left b d) (ih (Nat.lcm b d))

theorem foldl_lcm_dvd_mem (ds : List Nat) : ∀ b d : Nat, d ∈ ds → d ∣ ds.foldl Nat.lcm b := by
  induction ds with
  | nil => intro b d h; simp at h
  | cons e ds ih =>
      intro b d h
      rcases List.mem_cons.mp h with h | h
      · rw [h]
        exact dvd_trans (Nat.dvd_lcm_right b e) (foldl_lcm_dvd_init ds (Nat.lcm b e))
      · exact ih (Nat.lcm b e) d h

theorem dvd_lcmList {ds : List Nat} {d : Nat} (h : d ∈ ds) : d ∣ lcmList ds := by
  cases ds with
  | nil => simp at h
  | cons e ds =>
      rcases List.mem_cons.mp h with h | h
      · rw [h]
        exact foldl_lcm_dvd_init ds e
      · exact foldl_lcm_dvd_mem ds e d h

theorem foldl_lcm_dvd_of (ds : List Nat) : ∀ b k : Nat, b ∣ k → (∀ d ∈ ds, d ∣ k) →
    ds.foldl Nat.lcm b ∣ k := by
  induction ds with
  | nil => intro b k hb _; exact hb
  | cons d ds ih =>
      intro b k hb hall
      exact ih (Nat.lcm b d) k (Nat.lcm_dvd hb (hall d (List.mem_cons_self d ds)))
        (fun e he => hall e (List.mem_cons_of_mem d he))

theorem lcmList_dvd {ds : List Nat} {k : Nat} (h : ∀ d ∈ ds, d ∣ k) : lcmList ds ∣ k := by
  cases ds with
  | nil => exact one_dvd k
  | cons d ds =>
      exact foldl_lcm_dvd_of ds d k (h d (List.mem_cons_self d ds))
        (fun e he => h e (List.mem_cons_of_mem d he))

theorem lcmList_pos {ds : List Nat} (h : ∀ d ∈ ds, 0 < d) : 0 < lcmList ds := by
  cases ds with
  | nil => exact Nat.one_pos
  | cons d ds =>
      have : ∀ es : List Nat, (∀ e ∈ es, 0 < e) → ∀ b, 0 < b → 0 < es.foldl Nat.lcm b := by
        intro es
        induction es with
        | nil => intro _ b hb; exact hb
        | cons e es ih =>
            intro hes b hb
            exact ih (fun x hx => hes x (List.mem_cons_of_mem e hx)) (Nat.lcm b e)
              (Nat.lcm_pos hb (hes e (List.mem_cons_self e es)))
      exact this ds (fun x hx => h x (List.mem_cons_of_mem d hx)) d
        (h d (List.mem_cons_self d ds))

theorem limit_denominator_eq_self {q : Rat} {n : Nat} (h : q.den ≤ n) :
    limit_denominator q n = q := by
  simp [limit_denominator, h]

theorem mapM_parse_limited {floats : List String} {qs : List Rat}
    (hp : floats.mapM parseDecimal = some qs) (hden : ∀ q ∈ qs, q.den ≤ 1000000) :
    floats.mapM (fun f => (parseDecimal f).map (fun q => limit_denominator q 1000000)) = some qs := by
  induction floats generalizing qs with
  | nil =>
      simp only [List.mapM_nil, pure, Option.some.injEq] at hp ⊢
      exact hp
  | cons f fs ih =>
      rw [List.mapM_cons] at hp ⊢
      cases hf : parseDecimal f with
      | none => rw [hf] at hp; simp at hp
      | some q =>
          rw [hf] at hp
          cases hfs : fs.mapM parseDecimal with
          | none => rw [hfs] at hp; simp at hp
          | some rest =>
              rw [hfs] at hp
              simp only [Option.some_bind, Option.bind_eq_bind] at hp
              simp at hp
              subst hp
              have hq : q.den ≤ 1000000 := hden q (List.mem_cons_self q rest)
              have hrest : ∀ r ∈ rest, r.den ≤ 1000000 :=
                fun r hr => hden r (List.mem_cons_of_mem q hr)
              simp only [hf, Option.map_some', ih hfs hrest, Option.some_bind,
                Option.bind_eq_bind, pure, limit_denominator_eq_self hq]

theorem bitlenFuel_zero : ∀ fuel, bitlenFuel fuel 0 = 0 := by
  intro fuel
  cases fuel <;> simp [bitlenFuel]

theorem bitlenFuel_spec : ∀ fuel n, 1 ≤ n → n ≤ fuel →
    2 ^ (bitlenFuel fuel n - 1) ≤ n ∧ n < 2 ^ bitlenFuel fuel n := by
  intro fuel
  induction fuel with
  | zero => intro n h1 h2; omega
  | succ f ih =>
      intro n h1 _
      have hn0 : ¬(n = 0) := by omega
      rw [bitlenFuel, if_neg hn0]
      by_cases hone : n = 1
      · subst hone
        rw [show (1 : Nat) / 2 = 0 from rfl, bitlenFuel_zero]
        norm_num
      · have hhalf1 : 1 ≤ n / 2 := by omega
        have hhalf2 : n / 2 ≤ f := by omega
        obtain ⟨hl, hu⟩ := ih (n / 2) hhalf1 hhalf2
        have hl1 : 1 ≤ bitlenFuel f (n / 2) := by
          by_contra hc
          push_neg at hc
          have h0 : bitlenFuel f (n / 2) = 0 := by omega
          rw [h0] at hu
          simp at hu
          omega
        have hP : 2 ^ bitlenFuel f (n / 2) = 2 * 2 ^ (bitlenFuel f (n / 2) - 1) := by
          rw [← pow_succ']
          congr 1
          omega
        have hP2 : 2 ^ (bitlenFuel f (n / 2) + 1) = 2 * 2 ^ bitlenFuel f (n / 2) := by
          rw [← pow_succ']
        rw [Nat.add_sub_cancel]
        omega

theorem bitlen_lower {n : Nat} (h : 1 ≤ n) : 2 ^ (bitlen n - 1) ≤ n :=
  (bitlenFuel_spec n n h le_rfl).1

theorem bitlen_upper (n : Nat) : n < 2 ^ bitlen n := by
  rcases Nat.eq_zero_or_pos n with h0 | h1
  · subst h0
    norm_num [bitlen, bitlenFuel]
  · exact (bitlenFuel_spec n n h1 le_rfl).2

theorem bitlen_le {n j : Nat} (h : n < 2 ^ j) : bitlen n ≤ j := by
  rcases Nat.eq_zero_or_pos n with h0 | h1
  · subst h0
    simp [bitlen, bitlenFuel]
  · by_contra hc
    push_neg at hc
    have hlow := bitlen_lower h1
    have hj : j ≤ bitlen n - 1 := by omega
    have := Nat.pow_le_pow_right (by norm_num : 0 < 2) hj
    omega

theorem bitlen_mono {m n : Nat} (h : m ≤ n) : bitlen m ≤ bitlen n :=
  bitlen_le (lt_of_le_of_lt h (bitlen_upper n))

theorem divRoundNE_mul (x D : Nat) (hD : 0 < D) : divRoundNE (x * D) D = x := by
  simp only [divRoundNE]
  rw [Nat.mul_div_cancel _ hD, Nat.mul_mod_left]
  simp [hD]

theorem floatDivCore_exact {K b : Nat} (hb : 0 < b) (hK1 : 1 ≤ K) (hK : K ≤ 2 ^ 53) :
    ∃ m : Nat, ∃ t : Int, floatDivCore (K * b) b = .ok (m, t) ∧
      ((0 ≤ t ∧ m = K * 2 ^ t.toNat) ∨ (t = -1 ∧ K = 2 ^ 53 ∧ m = 2 ^ 52)) := by
  have hA1 : 1 ≤ K * b := Nat.mul_pos hK1 hb
  have hbu : b < 2 ^ bitlen b := bitlen_upper b
  have hAl : 2 ^ (bitlen (K * b) - 1) ≤ K * b := bitlen_lower hA1
  have hmono : bitlen b ≤ bitlen (K * b) := bitlen_mono (Nat.le_mul_of_pos_left b hK1)
  have hblen1 : 1 ≤ bitlen b := by
    by_contra hc
    push_neg at hc
    have h0 : bitlen b = 0 := by omega
    rw [h0] at hbu
    simp at hbu
    omega
  have he0nn : (0 : Int) ≤ (bitlen (K * b) : Int) - (bitlen b : Int) := by omega
  have htoNat : ((bitlen (K * b) : Int) - (bitlen b : Int)).toNat =
      bitlen (K * b) - bitlen b := by omega
  have hsel : ∃ E : Nat,
      (if (if 0 ≤ (bitlen (K * b) : Int) - (bitlen b : Int) then
            decide (b * 2 ^ ((bitlen (K * b) : Int) - (bitlen b : Int)).toNat ≤ K * b)
          else decide (b ≤ K * b * 2 ^ (-((bitlen (K * b) : Int) - (bitlen b : Int))).toNat)) =
          true
        then (bitlen (K * b) : Int) - (bitlen b : Int)
        else (bitlen (K * b) : Int) - (bitlen b : Int) - 1) = (E : Int) ∧
      2 ^ E ≤ K := by
    by_cases hcb : b * 2 ^ (bitlen (K * b) - bitlen b) ≤ K * b
    · refine ⟨bitlen (K * b) - bitlen b, ?_, ?_⟩
      · rw [if_pos he0nn, htoNat, decide_eq_true hcb, if_pos rfl]
        omega
      · have hcb2 : b * 2 ^ (bitlen (K * b) - bitlen b) ≤ b * K :=
          le_trans hcb (le_of_eq (mul_comm K b))
        exact Nat.le_of_mul_le_mul_left hcb2 hb
    · have hge : bitlen b + 1 ≤ bitlen (K * b) := by
        by_contra hc
        push_neg at hc
        have heq : bitlen (K * b) - bitlen b = 0 := by omega
        rw [heq] at hcb
        simp at hcb
        have := Nat.le_mul_of_pos_left b hK1
        omega
      refine ⟨bitlen (K * b) - bitlen b - 1, ?_, ?_⟩
      · rw [if_pos he0nn, htoNat, decide_eq_false hcb, if_neg (by simp)]
        omega
      · have hsplit : 2 ^ (bitlen (K * b) - 1) =
            2 ^ (bitlen (K * b) - bitlen b - 1) * 2 ^ bitlen b := by
          rw [← pow_add]
          congr 1
          omega
        by_contra hc
        push_neg at hc
        have h1 : K * b < 2 ^ (bitlen (K * b) - bitlen b - 1) * 2 ^ bitlen b :=
          calc K * b < 2 ^ (bitlen (K * b) - bitlen b - 1) * b :=
                mul_lt_mul_of_pos_right hc hb
            _ ≤ 2 ^ (bitlen (K * b) - bitlen b - 1) * 2 ^ bitlen b :=
                Nat.mul_le_mul_left _ (le_of_lt hbu)
        rw [← hsplit] at h1
        omega
  obtain ⟨E, hesel, hKe⟩ := hsel
  have hE53 : E ≤ 53 := by
    by_contra hc
    push_neg at hc
    have := Nat.pow_lt_pow_right (by norm_num : 1 < 2) hc
    omega
  simp only [floatDivCore]
  rw [hesel]
  rw [if_neg (show ¬((1024 : Int) ≤ (E : Int)) by omega)]
  rw [if_pos (show (-1022 : Int) ≤ (E : Int) by omega)]
  by_cases hE52 : E ≤ 52
  · have ht0 : (0 : Int) ≤ 52 - (E : Int) := by omega
    simp only [if_pos ht0]
    rw [show ((52 : Int) - (E : Int)).toNat = 52 - E from by omega]
    rw [show K * b * 2 ^ (52 - E) = K * 2 ^ (52 - E) * b from by ring]
    rw [divRoundNE_mul _ _ hb]
    have honot : ¬(2 ^ (1024 + (52 - E)) ≤ K * 2 ^ (52 - E)) := by
      push_neg
      calc K * 2 ^ (52 - E) ≤ 2 ^ 53 * 2 ^ (52 - E) := Nat.mul_le_mul_right _ hK
        _ = 2 ^ (53 + (52 - E)) := by rw [pow_add]
        _ < 2 ^ (1024 + (52 - E)) :=
            Nat.pow_lt_pow_right (by norm_num) (by omega)
    rw [if_neg (by simpa using honot)]
    refine ⟨_, _, rfl, Or.inl ⟨ht0, ?_⟩⟩
    rw [show ((52 : Int) - (E : Int)).toNat = 52 - E from by omega]
  · have hE : E = 53 := by omega
    have hK53 : K = 2 ^ 53 := by
      refine le_antisymm hK ?_
      calc (2 : Nat) ^ 53 = 2 ^ E := by rw [hE]
        _ ≤ K := hKe
    have ht0 : ¬((0 : Int) ≤ 52 - (E : Int)) := by omega
    simp only [if_neg ht0]
    rw [show (-((52 : Int) - (E : Int))).toNat = 1 from by omega]
    rw [show K * b = 2 ^ 52 * (b * 2 ^ 1) from by rw [hK53]; ring]
    rw [divRoundNE_mul _ _ (by positivity)]
    have honot : ¬((2 : Nat) ^ 1024 ≤ 2 ^ 52 * 2 ^ 1) := by
      push_neg
      calc (2 : Nat) ^ 52 * 2 ^ 1 = 2 ^ 53 := by rw [← pow_add]
        _ < 2 ^ 1024 := Nat.pow_lt_pow_right (by norm_num) (by norm_num)
    rw [if_neg (by simpa using honot)]
    exact ⟨_, _, rfl, Or.inr ⟨by omega, hK53, rfl⟩⟩

theorem floatDivInt_exact {k : Int} {b : Nat} (hb : 0 < b) (hk : k.natAbs ≤ 2 ^ 53) :
    floatDivInt (k * b) b = .ok (k : Rat) := by
  rcases eq_or_ne k 0 with rfl | hk0
  · simp [floatDivInt, hb.ne']
  · have hb0 : b ≠ 0 := hb.ne'
    have hbZ : ((b : Int) : Int) ≠ 0 := by exact_mod_cast hb0
    have ha0 : ¬(k * (b : Int) = 0) := mul_ne_zero hk0 (by exact_mod_cast hb0)
    have hKnat : (k * (b : Int)).natAbs = k.natAbs * b := by
      rw [Int.natAbs_mul, Int.natAbs_ofNat]
    have hK1 : 1 ≤ k.natAbs := Nat.one_le_iff_ne_zero.mpr (Int.natAbs_ne_zero.mpr hk0)
    obtain ⟨m, t, hcore, hdisj⟩ := floatDivCore_exact hb hK1 hk
    rw [floatDivInt, if_neg hb0, if_neg ha0, hKnat, hcore]
    simp only [Except.map, Except.ok.injEq]
    rcases Int.lt_or_lt_of_ne hk0 with hkneg | hkpos
    · have haneg : k * (b : Int) < 0 :=
        mul_neg_of_neg_of_pos hkneg (by exact_mod_cast hb)
      rw [if_pos haneg]
      have hNA : (k.natAbs : Int) = -k := Int.ofNat_natAbs_of_nonpos (le_of_lt hkneg)
      rcases hdisj with ⟨ht, hm⟩ | ⟨ht, hKval, hm⟩
      · rw [if_pos ht, hm]
        rw [Rat.mkRat_eq_div]
        push_cast [hNA]
        rw [div_eq_iff (by positivity : ((2 : Rat) ^ t.toNat) ≠ 0)]
        ring
      · subst ht
        rw [if_neg (by norm_num), hm]
        rw [show ((-(-1 : Int)).toNat) = 1 from rfl]
        have hkval : k = -(2 ^ 53) := by omega
        subst hkval
        norm_num
    · have hapos : 0 < k * (b : Int) :=
        mul_pos hkpos (by exact_mod_cast hb)
      rw [if_neg (not_lt.mpr (le_of_lt hapos))]
      have hNA : (k.natAbs : Int) = k := Int.natAbs_of_nonneg (le_of_lt hkpos)
      rcases hdisj with ⟨ht, hm⟩ | ⟨ht, hKval, hm⟩
      · rw [if_pos ht, hm]
        rw [Rat.mkRat_eq_div]
        push_cast [hNA]
        rw [div_eq_iff (by positivity : ((2 : Rat) ^ t.toNat) ≠ 0)]
      · subst ht
        rw [if_neg (by norm_num), hm]
        rw [show ((-(-1 : Int)).toNat) = 1 from rfl]
        have hkval : k = 2 ^ 53 := by omega
        subst hkval
        norm_num

theorem float_to_int_intCast (n : Int) : float_to_int ((n : Int) : Rat) = n := by
  rw [float_to_int, Rat.num_intCast, Rat.den_intCast]
  simp

theorem mapM_floatdiv_exact (L : Nat) :
    ∀ qs : List Rat,
      (∀ q ∈ qs, q.den ∣ L) →
      (∀ q ∈ qs, (q.num * ((L / q.den : Nat) : Int)).natAbs ≤ 2 ^ 53) →
      qs.mapM (fun r => (floatDivInt (r.num * (L : Int)) r.den).map float_to_int) =
        .ok (qs.map (fun r => r.num * ((L / r.den : Nat) : Int))) := by
  intro qs
  induction qs with
  | nil =>
      intro _ _
      rfl
  | cons q rest ih =>
      intro hdvd hbound
      have hd := hdvd q (List.mem_cons_self _ _)
      have hbq := hbound q (List.mem_cons_self _ _)
      have hrw : q.num * (L : Int) = q.num * ((L / q.den : Nat) : Int) * (q.den : Int) := by
        obtain ⟨c, hc⟩ := hd
        subst hc
        rw [Nat.mul_div_cancel_left c q.den_pos]
        push_cast
        ring
      rw [List.mapM_cons, hrw, floatDivInt_exact q.den_pos hbq,
        ih (fun r hr => hdvd r (List.mem_cons_of_mem _ hr))
          (fun r hr => hbound r (List.mem_cons_of_mem _ hr))]
      simp only [Except.map, float_to_int_intCast]
      rfl

theorem to_lcm_denominator_spec {floats : List String} {qs : List Rat}
    (hp : floats.mapM parseDecimal = some qs) (hne : qs ≠ [])
    (hden : ∀ q ∈ qs, q.den ≤ 1000000)
    (hmag : ∀ q ∈ qs,
      (q.num * ((lcmList (qs.map Rat.den) / q.den : Nat) : Int)).natAbs ≤ 2 ^ 53) :
    to_lcm_denominator floats =
      .ok (qs.map (fun r => r.num * (lcmList (qs.map Rat.den) : Int) / (r.den : Int))) := by
  rw [to_lcm_denominator, mapM_parse_limited hp hden]
  cases qs with
  | nil => exact absurd rfl hne
  | cons q rest =>
      dsimp only
      have hdvd : ∀ r ∈ q :: rest, r.den ∣ lcmList ((q :: rest).map Rat.den) :=
        fun r hr => dvd_lcmList (List.mem_map.mpr ⟨r, hr, rfl⟩)
      rw [mapM_floatdiv_exact _ (q :: rest) hdvd hmag]
      congr 1
      refine List.map_congr_left ?_
      intro r hr
      obtain ⟨c, hc⟩ := hdvd r hr
      have hden0 : (r.den : Int) ≠ 0 := by exact_mod_cast r.den_nz
      rw [hc, Nat.mul_div_cancel_left c r.den_pos]
      push_cast
      rw [show r.num * ((r.den : Int) * (c : Int)) = (r.den : Int) * (r.num * (c : Int)) from by
        ring]
      rw [Int.mul_ediv_cancel_left _ hden0]

theorem den_cast_mul (q : Rat) : ((q.den : Int) : Rat) * q = ((q.num : Int) : Rat) := by
  push_cast
  rw [mul_comm]
  exact_mod_cast Rat.mul_den_eq_num q

theorem coeff_cast_eq {q : Rat} {L : Nat} (hd : q.den ∣ L) :
    ((q.num * (L : Int) / (q.den : Int) : Int) : Rat) = (L : Rat) * q := by
  obtain ⟨m, hm⟩ := hd
  have hden0 : (q.den : Int) ≠ 0 := by
    exact_mod_cast q.den_nz
  have hdiv : q.num * (L : Int) / (q.den : Int) = q.num * m := by
    rw [hm]
    push_cast
    rw [show q.num * ((q.den : Int) * (m : Int)) = (q.den : Int) * (q.num * (m : Int)) by ring]
    exact Int.mul_ediv_cancel_left _ hden0
  rw [hdiv, hm]
  push_cast
  rw [← Rat.mul_den_eq_num q]
  ring

theorem coeff_roundtrip {q : Rat} {L : Nat} (hd : q.den ∣ L) (hL : 0 < L) :
    ((q.num * (L : Int) / (q.den : Int) : Int) : Rat) / (L : Rat) = q := by
  rw [coeff_cast_eq hd]
  have hL0 : (L : Rat) ≠ 0 := by
    have : (0 : Rat) < (L : Rat) := by exact_mod_cast hL
    exact ne_of_gt this
  field_simp

theorem den_dvd_of_mul_den_one {q : Rat} {k : Nat} (h : ((k : Rat) * q).den = 1) :
    q.den ∣ k := by
  have hm : ((k : Rat) * q) = ((((k : Rat) * q).num : Int) : Rat) :=
    (((k : Rat) * q).den_eq_one_iff.mp h).symm
  set m : Int := ((k : Rat) * q).num with hmdef
  have hcast : (((k : Int) * q.num : Int) : Rat) = ((m * (q.den : Int) : Int) : Rat) := by
    push_cast
    rw [← Rat.mul_den_eq_num q]
    calc (k : Rat) * (q * (q.den : Rat))
        = ((k : Rat) * q) * (q.den : Rat) := by ring
      _ = (m : Rat) * (q.den : Rat) := by rw [hm]
  have hint : (k : Int) * q.num = m * (q.den : Int) := by exact_mod_cast hcast
  have hdvd : (q.den : Int) ∣ (k : Int) * q.num := ⟨m, by rw [hint]; ring⟩
  have hnat : q.den ∣ k * q.num.natAbs := by
    have := Int.natAbs_dvd_natAbs.mpr hdvd
    simpa [Int.natAbs_mul] using this
  exact (Nat.Coprime.symm q.reduced).dvd_of_dvd_mul_right hnat

/-- C2 (amended): for stoichiometries all of whose literal decimal
coefficients have reduced denominator at most 1000000 (the CPython
`limit_denominator` default, below which it is the identity) and whose
scaled integer coefficients stay within the 2^53 horizon below which CPython
float true division of integers is exact, dividing each integer coefficient
produced by `_to_lcm_denominator` by the shared scale factor (the least
common multiple of the denominators) reproduces exactly the rational numbers
denoted by the literals.  Outside these bounds the claim fails: see the
counterexample, where `limit_denominator` substitutes an approximation
before scaling, and where the float division rounds 2^53 + 1 to 2^53. -/
theorem c2_roundtrip_bounded_denominators (floats : List String) (qs : List Rat)
    (hp : floats.mapM parseDecimal = some qs) (hne : qs ≠ [])
    (hden : ∀ q ∈ qs, q.den ≤ 1000000)
    (hmag : ∀ q ∈ qs,
      (q.num * ((lcmList (qs.map Rat.den) / q.den : Nat) : Int)).natAbs ≤ 2 ^ 53) :
    ∃ cs : List Int, to_lcm_denominator floats = .ok cs ∧
      List.Forall₂ (fun (c : Int) (q : Rat) =>
        (c : Rat) / ((lcmList (qs.map Rat.den) : Nat) : Rat) = q) cs qs := by
  refine ⟨_, to_lcm_denominator_spec hp hne hden hmag, ?_⟩
  rw [List.forall₂_map_left_iff]
  rw [List.forall₂_same]
  intro q hq
  have hd : q.den ∣ lcmList (qs.map Rat.den) :=
    dvd_lcmList (List.mem_map.mpr ⟨q, hq, rfl⟩)
  have hL : 0 < lcmList (qs.map Rat.den) := by
    apply lcmList_pos
    intro d hdmem
    obtain ⟨r, _, hr⟩ := List.mem_map.mp hdmem
    rw [← hr]
    exact r.den_pos
  exact coeff_roundtrip hd hL

unseal Rat.mul Rat.sub Rat.add Rat.inv Rat.ofScientific in
/-- C2 (counterexample): the literal `0.3333333` denotes 3333333/10000000,
whose reduced denominator exceeds 1000000, so `limit_denominator` replaces it
by 1/3 before scaling and `_to_lcm_denominator` returns the vector (1, 3),
which is not exactly proportional to the literal decimal values: the cross
products 1 * 1 and 3 * 0.3333333 differ.  Independently, the literal
9007199254740993 (2^53 + 1, an integer, denominator 1) comes back as
9007199254740992, because CPython float true division rounds the quotient to
the nearest double before `int()` truncates it. -/
theorem c2_counterexample :
    parseDecimal "0.3333333" = some (mkRat 3333333 10000000) ∧
    parseDecimal "1" = some (mkRat 1 1) ∧
    to_lcm_denominator ["0.3333333", "1"] = Except.ok [1, 3] ∧
    mkRat 1 1 * mkRat 1 1 ≠ mkRat 3 1 * mkRat 3333333 10000000 ∧
    parseDecimal "9007199254740993" = some (mkRat 9007199254740993 1) ∧
    to_lcm_denominator ["9007199254740993"] = Except.ok [9007199254740992] := by
  exact ⟨by decide, by decide, by decide, by decide, by decide, by decide⟩

/-- C2 (witness): a two-term stoichiometry with short literals (`0.5`,
`0.25`) where the round trip holds: the coefficients are (2, 1) with shared
scale factor lcm(2, 4) = 4, and 2/4 recovers 0.5 exactly. -/
theorem c2_witness :
    to_lcm_denominator ["0.5", "0.25"] = Except.ok [2, 1] ∧
    ((2 : Int) : Rat) / ((lcmList ([mkRat 1 2, mkRat 1 4].map Rat.den) : Nat) : Rat)
      = mkRat 1 2 := by
  obtain ⟨cs, h1, h2⟩ :=
    c2_roundtrip_bounded_denominators ["0.5", "0.25"] [mkRat 1 2, mkRat 1 4]
      (by decide) (by decide) (by decide) (by decide)
  have h3 : to_lcm_denominator ["0.5", "0.25"] = Except.ok [2, 1] := by decide
  injection h3.symm.trans h1 with h4
  rw [← h4] at h2
  rcases h2 with _ | ⟨hhead, _⟩
  exact ⟨h3, hhead⟩

/-- C3 (amended): for stoichiometries whose parsed literals all have reduced
denominator at most 1000000 and whose scaled coefficients stay within the
2^53 horizon below which CPython float true division of integers is exact,
`_to_lcm_denominator` returns exactly the vector of the rationals scaled by
L, the least common multiple of their denominators; L is positive and is the
least uniform integer scale factor making every scaled term integral (any
positive integer k with all k * q integral is a multiple of L).  The vector
itself need not be the smallest integer vector proportional to the
rationals: the coefficients can retain a common divisor (the counterexample
has gcd 2). -/
theorem c3_lcm_scaling (floats : List String) (qs : List Rat)
    (hp : floats.mapM parseDecimal = some qs) (hne : qs ≠ [])
    (hden : ∀ q ∈ qs, q.den ≤ 1000000)
    (hmag : ∀ q ∈ qs,
      (q.num * ((lcmList (qs.map Rat.den) / q.den : Nat) : Int)).natAbs ≤ 2 ^ 53) :
    ∃ cs : List Int, to_lcm_denominator floats = .ok cs ∧
      List.Forall₂ (fun (c : Int) (q : Rat) =>
        (c : Rat) = ((lcmList (qs.map Rat.den) : Nat) : Rat) * q) cs qs ∧
      0 < lcmList (qs.map Rat.den) ∧
      (∀ k : Nat, 0 < k → (∀ q ∈ qs, ((k : Rat) * q).den = 1) →
        lcmList (qs.map Rat.den) ∣ k) := by
  refine ⟨_, to_lcm_denominator_spec hp hne hden hmag, ?_, ?_, ?_⟩
  · rw [List.forall₂_map_left_iff, List.forall₂_same]
    intro q hq
    exact coeff_cast_eq (dvd_lcmList (List.mem_map.mpr ⟨q, hq, rfl⟩))
  · apply lcmList_pos
    intro d hd
    obtain ⟨r, _, hr⟩ := List.mem_map.mp hd
    rw [← hr]
    exact r.den_pos
  · intro k _ hint
    apply lcmList_dvd
    intro d hd
    obtain ⟨r, hrmem, hr⟩ := List.mem_map.mp hd
    rw [← hr]
    exact den_dvd_of_mul_den_one (hint r hrmem)

/-- C3 (counterexample): the stoichiometry coefficients (2, 2) parse to
integers with denominator 1, the least common multiple of the denominators
is 1, and the returned integer vector is (2, 2), whose greatest common
divisor is 2, not 1; the strictly smaller vector (1, 1) realizes the same
ratios, so the result is not the smallest proportional integer vector. -/
theorem c3_counterexample :
    to_lcm_denominator ["2", "2"] = Except.ok [2, 2] ∧ gcdIntList [2, 2] = 2 := by
  exact ⟨by decide, by decide⟩

unseal Rat.mul Rat.sub Rat.add Rat.inv Rat.ofScientific in
/-- C3 (witness): for the literals (`1.5`, `0.5`) the scale factor is
lcm(2, 2) = 2, the coefficients are (3, 1) with 3 = 2 * 1.5, and the
minimality conclusion instantiated at k = 2 shows L divides 2. -/
theorem c3_witness :
    to_lcm_denominator ["1.5", "0.5"] = Except.ok [3, 1] ∧
    ((3 : Int) : Rat) = ((lcmList ([mkRat 3 2, mkRat 1 2].map Rat.den) : Nat) : Rat) * mkRat 3 2 ∧
    lcmList ([mkRat 3 2, mkRat 1 2].map Rat.den) ∣ 2 := by
  obtain ⟨cs, h1, h2, hpos, hmin⟩ :=
    c3_lcm_scaling ["1.5", "0.5"] [mkRat 3 2, mkRat 1 2]
      (by decide) (by decide) (by decide) (by decide)
  have h3 : to_lcm_denominator ["1.5", "0.5"] = Except.ok [3, 1] := by decide
  injection h3.symm.trans h1 with h4
  rw [← h4] at h2
  rcases h2 with _ | ⟨hhead, _⟩
  exact ⟨h3, hhead, hmin 2 (by decide) (by decide)⟩

/-- C6: on the spec scenario row (stoichiometry
`-1:cpd00001:0;1:cpd00002:0;1:cpd00003:1`, direction `>`, reversibility `<`)
`_get_modelseed_reaction` returns coefficients (1, -1, -1) — the parsed
values negated — compartments (c, c, e) and a false reversibility flag; and
in general, for any row whose fields parse, the coefficient vector is the
negation of the base vector exactly when direction and reversibility are
opposite arrow codes, and the reversibility flag is true exactly when the
reversibility code is `=` or `?`. -/
theorem c6_direction_reversibility :
    (get_modelseed_reaction c6Row = Except.ok (some
      ({ modelseed_id := "rxn1", modelseed_name := none, kegg_id_aliases := [],
         ec_number_aliases := [], compounds := [], coefficients := [1, -1, -1],
         compartments := ["c", "c", "e"], reversibility := false },
       ["cpd00001", "cpd00002", "cpd00003"]))) ∧
    (∀ (row : ReactionRow) (st i rev d : String) (cs ids comps : List String) (base : List Int),
      row.stoichiometry = some st → row.id = some i → row.reversibility = some rev →
      row.direction = some d → parse_stoichiometry st = .ok (cs, ids, comps) →
      to_lcm_denominator cs = .ok base →
      get_modelseed_reaction row = Except.ok (some
        ({ modelseed_id := i, modelseed_name := row.name,
           kegg_id_aliases := rowKeggAliases row, ec_number_aliases := rowEcAliases row,
           compounds := [],
           coefficients :=
             (if (d = ">" ∧ rev = "<") ∨ (d = "<" ∧ rev = ">")
              then base.map (fun c => -c) else base),
           compartments := comps,
           reversibility := (if rev = "=" ∨ rev = "?" then true else false) },
         ids))) := by
  constructor
  · decide
  · intro row st i rev d cs ids comps base hst hid hrev hdir hps hlcm
    simp only [get_modelseed_reaction, hst, hid, hrev, hdir, hps, hlcm]

/-- C6 (witness): the general clause instantiated at the scenario row,
reducing the condition on the concrete arrow codes. -/
theorem c6_witness :
    get_modelseed_reaction c6Row = Except.ok (some
      ({ modelseed_id := "rxn1", modelseed_name := none, kegg_id_aliases := [],
         ec_number_aliases := [], compounds := [], coefficients := [1, -1, -1],
         compartments := ["c", "c", "e"], reversibility := false },
       ["cpd00001", "cpd00002", "cpd00003"])) :=
  (c6_direction_reversibility.2 c6Row "-1:cpd00001:0;1:cpd00002:0;1:cpd00003:1" "rxn1" "<" ">"
    ["-1", "1", "1"] ["cpd00001", "cpd00002", "cpd00003"] ["c", "c", "e"] [-1, 1, 1]
    rfl rfl rfl rfl (by decide) (by decide)).trans (by decide)

theorem perm_pairwise_lt_eq {α : Type} {lt : α → α → Prop}
    (hasym : ∀ a b, lt a b → lt b a → False) :
    ∀ l₁ l₂ : List α, l₁.Perm l₂ → l₁.Pairwise lt → l₂.Pairwise lt → l₁ = l₂ := by
  intro l₁
  induction l₁ with
  | nil =>
      intro l₂ hp _ _
      rw [hp.symm.eq_nil]
  | cons a t₁ ih =>
      intro l₂ hp h₁ h₂
      have ha : a ∈ l₂ := hp.mem_iff.mp (List.mem_cons_self a t₁)
      cases l₂ with
      | nil => simp at ha
      | cons b t₂ =>
          by_cases hab : a = b
          · subst hab
            rw [ih t₂ hp.cons_inv (List.Pairwise.of_cons h₁) (List.Pairwise.of_cons h₂)]
          · have ha2 : a ∈ t₂ := by
              rcases List.mem_cons.mp ha with h | h
              · exact absurd h hab
              · exact h
            have hba : lt b a := List.rel_of_pairwise_cons h₂ ha2
            have hb1 : b ∈ a :: t₁ := hp.symm.mem_iff.mp (List.mem_cons_self b t₂)
            have hb : b ∈ t₁ := by
              rcases List.mem_cons.mp hb1 with h | h
              · exact absurd h.symm hab
              · exact h
            have hab2 : lt a b := List.rel_of_pairwise_cons h₁ hb
            exact (hasym a b hab2 hba).elim

theorem insertionSort_eq_of_perm_nodup_keys (l₁ l₂ : List KOAnnotation)
    (hperm : l₁.Perm l₂) (hnd : (l₁.map Prod.fst).Nodup) :
    List.insertionSort keyLe l₁ = List.insertionSort keyLe l₂ := by
  have hp₁ := List.perm_insertionSort keyLe l₁
  have hp₂ := List.perm_insertionSort keyLe l₂
  have hpair : ∀ l : List KOAnnotation, l.Perm l₁ →
      (List.insertionSort keyLe l).Pairwise (fun a b : KOAnnotation => a.1 < b.1) := by
    intro l hl
    have hsorted : (List.insertionSort keyLe l).Pairwise keyLe :=
      List.sorted_insertionSort keyLe l
    have hmaps : ((List.insertionSort keyLe l).map Prod.fst).Nodup := by
      have h1 : (l.map Prod.fst).Nodup := ((hl.map Prod.fst).nodup_iff).mpr hnd
      exact (((List.perm_insertionSort keyLe l).map Prod.fst).nodup_iff).mpr h1
    have hne : (List.insertionSort keyLe l).Pairwise (fun a b : KOAnnotation => a.1 ≠ b.1) :=
      List.pairwise_map.mp hmaps
    refine (hsorted.and hne).imp ?_
    rintro a b ⟨hle, hne2⟩
    rcases hle with h | ⟨heq, _⟩
    · exact h
    · exact absurd heq hne2
  refine perm_pairwise_lt_eq (fun a b h1 h2 => absurd h1 (lt_asymm h2)) _ _
    (hp₁.trans (hperm.trans hp₂.symm)) (hpair l₁ (List.Perm.refl l₁)) (hpair l₂ hperm.symm)

/-- C5 (amended): the annotation fingerprint is invariant to the order in
which the records are supplied, for inputs whose stringified gene caller IDs
are pairwise distinct — which holds of the actual input, a dictionary keyed
by gene caller ID, whose items carry each gene caller ID once.  (Without
that restriction two records agreeing on the sort key `(str(gcid), ko_id)`
but differing elsewhere could be emitted in either order by the stable
sort.)  The second half of the original claim — that the digest changes
whenever a tuple changes — fails: see the counterexample. -/
theorem c5_order_invariance (l₁ l₂ : List AnnotationRecord)
    (hperm : l₁.Perm l₂)
    (hnd : (l₁.map (fun r => toString r.gcid)).Nodup) :
    hash_ko_annotations l₁ = hash_ko_annotations l₂ := by
  simp only [hash_ko_annotations]
  have hmap : (l₁.map (fun r => (toString r.gcid, r.ko_id, r.ko_name, r.e_value))).Perm
      (l₂.map (fun r => (toString r.gcid, r.ko_id, r.ko_name, r.e_value))) :=
    hperm.map _
  have hk : ((l₁.map (fun r => (toString r.gcid, r.ko_id, r.ko_name, r.e_value))).map
      Prod.fst).Nodup := by
    rw [List.map_map]
    simpa [Function.comp] using hnd
  rw [insertionSort_eq_of_perm_nodup_keys _ _ hmap hk]

/-- C5 (counterexample): two different annotation sets produce the same
digest: the fields are concatenated with no separator before hashing, so
moving the final character of the KO ID into the KO name leaves the hashed
string — and hence the SHA-1 digest, a deterministic function of it —
unchanged. -/
theorem c5_counterexample :
    hash_ko_annotations c5RecordsA = hash_ko_annotations c5RecordsB ∧
    c5RecordsA ≠ c5RecordsB := by
  exact ⟨by decide, by decide⟩

/-- C5 (witness): two concrete streams of the same two records in either
order hash identically. -/
theorem c5_witness :
    hash_ko_annotations
      [{ gcid := 2, ko_id := "K00002", ko_name := "b", e_value := "1.0" },
       { gcid := 1, ko_id := "K00001", ko_name := "a", e_value := "0.5" }] =
    hash_ko_annotations
      [{ gcid := 1, ko_id := "K00001", ko_name := "a", e_value := "0.5" },
       { gcid := 2, ko_id := "K00002", ko_name := "b", e_value := "1.0" }] :=
  c5_order_invariance _ _ (by decide) (by decide)

theorem process_kegg_ids_frame (kIds ecs : List String) :
    ∀ ids s ko un out, process_kegg_ids kIds ecs ids s ko un = .ok out →
      out.1.genes = s.genes ∧ out.1.kos = s.kos ∧ out.1.reactions = s.reactions ∧
      out.1.metabolites = s.metabolites ∧ out.1.ec_numbers = s.ec_numbers := by
  intro ids
  induction ids with
  | nil =>
      intro s ko un out h
      simp only [process_kegg_ids] at h
      cases h
      exact ⟨rfl, rfl, rfl, rfl, rfl⟩
  | cons kid rest ih =>
      intro s ko un out h
      simp only [process_kegg_ids] at h
      split at h
      · simpa using ih _ _ _ _ h
      · split at h
        · simp at h
        · simpa using ih _ _ _ _ h

theorem process_ec_numbers_frame (kIds ecs : List String) :
    ∀ ids s ko un out, process_ec_numbers kIds ecs ids s ko un = .ok out →
      out.1.genes = s.genes ∧ out.1.kos = s.kos ∧ out.1.reactions = s.reactions ∧
      out.1.metabolites = s.metabolites ∧ out.1.kegg_reactions = s.kegg_reactions := by
  intro ids
  induction ids with
  | nil =>
      intro s ko un out h
      simp only [process_ec_numbers] at h
      cases h
      exact ⟨rfl, rfl, rfl, rfl, rfl⟩
  | cons ec rest ih =>
      intro s ko un out h
      simp only [process_ec_numbers] at h
      split at h
      · simpa using ih _ _ _ _ h
      · split at h
        · simp at h
        · simpa using ih _ _ _ _ h

theorem create_compounds_frame (t : Tables) :
    ∀ cids s rc out, create_compounds t cids s rc = .ok out →
      out.1.genes = s.genes ∧ out.1.kos = s.kos ∧ out.1.reactions = s.reactions ∧
      out.1.kegg_reactions = s.kegg_reactions ∧ out.1.ec_numbers = s.ec_numbers := by
  intro cids
  induction cids with
  | nil =>
      intro s rc out h
      simp only [create_compounds] at h
      cases h
      exact ⟨rfl, rfl, rfl, rfl, rfl⟩
  | cons cid rest ih =>
      intro s rc out h
      simp only [create_compounds] at h
      split at h
      · simp at h
      · split at h
        · simp at h
        · simpa using ih _ _ _ h

theorem create_reactions_frame (t : Tables) (uk ue : List String) :
    ∀ data s ko out, create_reactions t uk ue data s ko = .ok out →
      out.1.genes = s.genes ∧ out.1.kos = s.kos := by
  intro data
  induction data with
  | nil =>
      intro s ko out h
      simp only [create_reactions] at h
      cases h
      exact ⟨rfl, rfl⟩
  | cons entry rest ih =>
      intro s ko out h
      obtain ⟨oid, row⟩ := entry
      simp only [create_reactions] at h
      split at h
      · simp at h
      · simpa using ih _ _ _ h
      · split at h
        · simp at h
        · next s1 rc hcc =>
            split at h
            · simp at h
            · split at h
              · simp at h
              · have hfin := ih _ _ _ h
                have hccf := create_compounds_frame t _ _ _ _ hcc
                exact ⟨hfin.1.trans hccf.1, hfin.2.trans hccf.2.1⟩

theorem runRecords_inv (t : Tables) (P : GenomicNetwork → List String → Prop)
    (hstep : ∀ net undef r out, P net undef → processRecord t net undef r = .ok out →
      P out.1 out.2) :
    ∀ recs net undef out, P net undef → runRecords t recs net undef = .ok out →
      P out.1 out.2 := by
  intro recs
  induction recs with
  | nil =>
      intro net undef out hP h
      simp only [runRecords] at h
      cases h
      exact hP
  | cons r rest ih =>
      intro net undef out hP h
      simp only [runRecords] at h
      split at h
      · simp at h
      · next st1 hpr =>
          exact ih _ _ _ (hstep net undef r _ hP hpr) h

theorem parallel_gene_update {genes : List (Int × Gene)} {g0 : Gene} {gcid : Int}
    {kid ev : String}
    (hinv : ∀ p ∈ genes, (p.2).kos.length = (p.2).e_values.length)
    (hg0 : alookup gcid genes = some g0 ∨ g0 = { gcid := gcid, kos := [], e_values := [] }) :
    ∀ p ∈ ainsert gcid
        { g0 with kos := g0.kos ++ [kid], e_values := g0.e_values ++ [ev] } genes,
      (p.2).kos.length = (p.2).e_values.length := by
  intro p hp
  have hbase : g0.kos.length = g0.e_values.length := by
    rcases hg0 with h | h
    · exact hinv _ (alookup_mem h)
    · rw [h]
  rcases mem_ainsert hp with hpe | ⟨hmem, _⟩
  · rw [hpe]
    simp [hbase]
  · exact hinv p hmem


theorem processRecord_spec (t : Tables) (net : GenomicNetwork) (undef : List String)
    (r : AnnotationRecord) (out : GenomicNetwork × List String)
    (h : processRecord t net undef r = .ok out) :
    ∃ gene2 : Gene,
      (∃ g0 : Gene,
        (alookup r.gcid net.genes = some g0 ∨
          (alookup r.gcid net.genes = none ∧ g0 = { gcid := r.gcid, kos := [], e_values := [] })) ∧
        gene2 = { g0 with kos := g0.kos ++ [r.ko_id], e_values := g0.e_values ++ [r.e_value] }) ∧
      (((alookup r.ko_id net.kos).isSome = true ∧
          out = ({ net with genes := ainsert r.gcid gene2 net.genes }, undef)) ∨
        (alookup r.ko_id net.kos = none ∧
          ∃ net2 : GenomicNetwork,
          net2 = { net with genes := ainsert r.gcid gene2 net.genes, kos := ainsert r.ko_id (freshKO r) net.kos } ∧
          ((alookup r.ko_id t.koTable = none ∧ out = (net2, undef ++ [r.ko_id])) ∨
          ((alookup r.ko_id t.koTable).isSome = true ∧
            ((koAliasKegg t r.ko_id = [] ∧ koAliasEc t r.ko_id = [] ∧ out = (net2, undef)) ∨
              (¬(koAliasKegg t r.ko_id = [] ∧ koAliasEc t r.ko_id = []) ∧
                (∃ n3 ko1 uk n4 ko2 ue,
                  process_kegg_ids (koAliasKegg t r.ko_id) (koAliasEc t r.ko_id)
                    (koAliasKegg t r.ko_id) net2 (freshKO r) [] = .ok (n3, ko1, uk) ∧
                  process_ec_numbers (koAliasKegg t r.ko_id) (koAliasEc t r.ko_id)
                    (koAliasEc t r.ko_id) n3 ko1 [] = .ok (n4, ko2, ue) ∧
                  ((uk = [] ∧ ue = [] ∧
                      out = ({ n4 with kos := ainsert r.ko_id ko2 n4.kos }, undef)) ∨
                    (¬(uk = [] ∧ ue = []) ∧ collected_reactions_data t uk ue = [] ∧
                      out = ({ n4 with kos := ainsert r.ko_id ko2 n4.kos }, undef)) ∨
                    (¬(uk = [] ∧ ue = []) ∧ ¬(collected_reactions_data t uk ue = []) ∧
                      ∃ n5 ko3,
                        create_reactions t uk ue (collected_reactions_data t uk ue) n4 ko2 =
                          .ok (n5, ko3) ∧
                        out = ({ n5 with kos := ainsert r.ko_id ko3 n5.kos },
                          undef)))))))))) := by
  simp only [processRecord] at h
  cases hgl : alookup r.gcid net.genes with
  | some g =>
      rw [hgl] at h
      dsimp only at h
      refine ⟨_, ⟨g, Or.inl rfl, rfl⟩, ?_⟩
      cases hko : alookup r.ko_id net.kos with
      | some k =>
          rw [hko] at h
          dsimp only at h
          cases h
          exact Or.inl ⟨rfl, rfl⟩
      | none =>
          rw [hko] at h
          dsimp only at h
          refine Or.inr ⟨rfl, _, rfl, ?_⟩
          cases hkt : alookup r.ko_id t.koTable with
          | none =>
              rw [hkt] at h
              dsimp only at h
              cases h
              exact Or.inl ⟨rfl, rfl⟩
          | some info =>
              rw [hkt] at h
              dsimp only at h
              refine Or.inr ⟨rfl, ?_⟩
              by_cases hempty : koAliasKegg t r.ko_id = [] ∧ koAliasEc t r.ko_id = []
              · rw [if_pos hempty] at h
                cases h
                exact Or.inl ⟨hempty.1, hempty.2, rfl⟩
              · rw [if_neg hempty] at h
                refine Or.inr ⟨hempty, ?_⟩
                cases hpk : process_kegg_ids (koAliasKegg t r.ko_id) (koAliasEc t r.ko_id) (koAliasKegg t r.ko_id) { net with genes := ainsert r.gcid { g with kos := g.kos ++ [r.ko_id], e_values := g.e_values ++ [r.e_value] } net.genes, kos := ainsert r.ko_id (freshKO r) net.kos } (freshKO r) [] with
                | error e => rw [hpk] at h; simp at h
                | ok st3 =>
                    obtain ⟨n3, ko1, uk⟩ := st3
                    rw [hpk] at h
                    dsimp only at h
                    cases hpe : process_ec_numbers (koAliasKegg t r.ko_id)
                        (koAliasEc t r.ko_id) (koAliasEc t r.ko_id) n3 ko1 [] with
                    | error e => rw [hpe] at h; simp at h
                    | ok st4 =>
                        obtain ⟨n4, ko2, ue⟩ := st4
                        rw [hpe] at h
                        dsimp only at h
                        refine ⟨n3, ko1, uk, n4, ko2, ue, rfl, hpe, ?_⟩
                        by_cases hu : uk = [] ∧ ue = []
                        · rw [if_pos hu] at h
                          cases h
                          exact Or.inl ⟨hu.1, hu.2, rfl⟩
                        · rw [if_neg hu] at h
                          by_cases hdata : collected_reactions_data t uk ue = []
                          · rw [if_pos hdata] at h
                            cases h
                            exact Or.inr (Or.inl ⟨hu, hdata, rfl⟩)
                          · rw [if_neg hdata] at h
                            cases hcr : create_reactions t uk ue
                                (collected_reactions_data t uk ue) n4 ko2 with
                            | error e => rw [hcr] at h; simp at h
                            | ok st5 =>
                                obtain ⟨n5, ko3⟩ := st5
                                rw [hcr] at h
                                dsimp only at h
                                cases h
                                exact Or.inr (Or.inr ⟨hu, hdata, n5, ko3, rfl, rfl⟩)
  | none =>
      rw [hgl] at h
      dsimp only at h
      refine ⟨_, ⟨{ gcid := r.gcid, kos := [], e_values := [] }, Or.inr ⟨rfl, rfl⟩, rfl⟩, ?_⟩
      cases hko : alookup r.ko_id net.kos with
      | some k =>
          rw [hko] at h
          dsimp only at h
          cases h
          exact Or.inl ⟨rfl, rfl⟩
      | none =>
          rw [hko] at h
          dsimp only at h
          refine Or.inr ⟨rfl, _, rfl, ?_⟩
          cases hkt : alookup r.ko_id t.koTable with
          | none =>
              rw [hkt] at h
              dsimp only at h
              cases h
              exact Or.inl ⟨rfl, rfl⟩
          | some info =>
              rw [hkt] at h
              dsimp only at h
              refine Or.inr ⟨rfl, ?_⟩
              by_cases hempty : koAliasKegg t r.ko_id = [] ∧ koAliasEc t r.ko_id = []
              · rw [if_pos hempty] at h
                cases h
                exact Or.inl ⟨hempty.1, hempty.2, rfl⟩
              · rw [if_neg hempty] at h
                refine Or.inr ⟨hempty, ?_⟩
                cases hpk : process_kegg_ids (koAliasKegg t r.ko_id) (koAliasEc t r.ko_id) (koAliasKegg t r.ko_id) { net with genes := ainsert r.gcid { gcid := r.gcid, kos := [] ++ [r.ko_id], e_values := [] ++ [r.e_value] } net.genes, kos := ainsert r.ko_id (freshKO r) net.kos } (freshKO r) [] with
                | error e => rw [hpk] at h; simp at h
                | ok st3 =>
                    obtain ⟨n3, ko1, uk⟩ := st3
                    rw [hpk] at h
                    dsimp only at h
                    cases hpe : process_ec_numbers (koAliasKegg t r.ko_id)
                        (koAliasEc t r.ko_id) (koAliasEc t r.ko_id) n3 ko1 [] with
                    | error e => rw [hpe] at h; simp at h
                    | ok st4 =>
                        obtain ⟨n4, ko2, ue⟩ := st4
                        rw [hpe] at h
                        dsimp only at h
                        refine ⟨n3, ko1, uk, n4, ko2, ue, rfl, hpe, ?_⟩
                        by_cases hu : uk = [] ∧ ue = []
                        · rw [if_pos hu] at h
                          cases h
                          exact Or.inl ⟨hu.1, hu.2, rfl⟩
                        · rw [if_neg hu] at h
                          by_cases hdata : collected_reactions_data t uk ue = []
                          · rw [if_pos hdata] at h
                            cases h
                            exact Or.inr (Or.inl ⟨hu, hdata, rfl⟩)
                          · rw [if_neg hdata] at h
                            cases hcr : create_reactions t uk ue
                                (collected_reactions_data t uk ue) n4 ko2 with
                            | error e => rw [hcr] at h; simp at h
                            | ok st5 =>
                                obtain ⟨n5, ko3⟩ := st5
                                rw [hcr] at h
                                dsimp only at h
                                cases h
                                exact Or.inr (Or.inr ⟨hu, hdata, n5, ko3, rfl, rfl⟩)

theorem processRecord_gene_lists (t : Tables) (net : GenomicNetwork) (undef : List String)
    (r : AnnotationRecord) (out : GenomicNetwork × List String)
    (hinv : GeneListsParallel net)
    (h : processRecord t net undef r = .ok out) :
    GeneListsParallel out.1 := by
  obtain ⟨gene2, ⟨g0, hg0, hgene2⟩, hcases⟩ := processRecord_spec t net undef r out h
  have hupd : ∀ p ∈ ainsert r.gcid gene2 net.genes,
      (p.2).kos.length = (p.2).e_values.length := by
    subst hgene2
    refine parallel_gene_update hinv ?_
    rcases hg0 with h1 | ⟨_, h2⟩
    · exact Or.inl h1
    · exact Or.inr h2
  rcases hcases with ⟨_, hout⟩ | ⟨_, net2, hnet2, hrest⟩
  · rw [hout]
    exact hupd
  · have hnet2genes : net2.genes = ainsert r.gcid gene2 net.genes := by rw [hnet2]
    rcases hrest with ⟨_, hout⟩ | ⟨_, hrest2⟩
    · rw [hout]
      intro p hp
      exact hupd p (by rwa [hnet2genes] at hp)
    · rcases hrest2 with ⟨_, _, hout⟩ | ⟨_, n3, ko1, uk, n4, ko2, ue, hpk, hpe, hd⟩
      · rw [hout]
        intro p hp
        exact hupd p (by rwa [hnet2genes] at hp)
      · have hf3 : n3.genes = net2.genes := (process_kegg_ids_frame _ _ _ _ _ _ _ hpk).1
        have hf4 : n4.genes = n3.genes := (process_ec_numbers_frame _ _ _ _ _ _ _ hpe).1
        rcases hd with ⟨_, _, hout⟩ | ⟨_, _, hout⟩ | ⟨_, _, n5, ko3, hcr, hout⟩
        · rw [hout]
          intro p hp
          refine hupd p ?_
          rw [← hnet2genes, ← hf3, ← hf4]
          exact hp
        · rw [hout]
          intro p hp
          refine hupd p ?_
          rw [← hnet2genes, ← hf3, ← hf4]
          exact hp
        · have hf5 : n5.genes = n4.genes := (create_reactions_frame _ _ _ _ _ _ _ hcr).1
          rw [hout]
          intro p hp
          refine hupd p ?_
          rw [← hnet2genes, ← hf3, ← hf4, ← hf5]
          exact hp

/-- C10: in every network produced by the builder, each gene carries exactly
as many e-values as KO references: both lists receive exactly one element
per annotation record naming the gene, in both the KO-already-in-network
branch and the new-KO branch, so the i-th e-value scores the i-th KO
match. -/
theorem c10_parallel_gene_lists (t : Tables) (recs : List AnnotationRecord)
    (net : GenomicNetwork) (undef : List String)
    (h : make_contigs_database_network t recs = .ok (net, undef)) :
    GeneListsParallel net := by
  have hrun := runRecords_inv t (fun n _ => GeneListsParallel n)
    (fun net0 undef0 r out hP hpr => processRecord_gene_lists t net0 undef0 r out hP hpr)
    recs emptyNetwork [] (net, undef)
    (by intro p hp; simp [emptyNetwork] at hp) h
  exact hrun

/-- C10 (witness): in the concrete witness run, gene 1 has KO and e-value
lists of equal length. -/
theorem c10_witness :
    ((alookup 1 exNet.genes).getD defaultGene).kos.length =
      ((alookup 1 exNet.genes).getD defaultGene).e_values.length := by
  have hok : make_contigs_database_network exTables exRecords =
      .ok (exNet, exUndefined) := by decide
  exact c10_parallel_gene_lists exTables exRecords exNet exUndefined hok
    (1, (alookup 1 exNet.genes).getD defaultGene) (by decide)

theorem processRecord_ok_of_undefined (t : Tables) (net : GenomicNetwork)
    (undef : List String) (r : AnnotationRecord)
    (hkt : alookup r.ko_id t.koTable = none) :
    ∃ out, processRecord t net undef r = .ok out := by
  simp only [processRecord]
  cases hgl : alookup r.gcid net.genes with
  | some g =>
      dsimp only
      cases hko : alookup r.ko_id net.kos with
      | some k => exact ⟨_, rfl⟩
      | none =>
          rw [hkt]
          exact ⟨_, rfl⟩
  | none =>
      dsimp only
      cases hko : alookup r.ko_id net.kos with
      | some k => exact ⟨_, rfl⟩
      | none =>
          rw [hkt]
          exact ⟨_, rfl⟩

theorem processRecord_undefined_inv (t : Tables) (net : GenomicNetwork)
    (undef : List String) (r : AnnotationRecord) (out : GenomicNetwork × List String)
    (koId : String) (hkt : alookup koId t.koTable = none)
    (hP : ∀ ko, alookup koId net.kos = some ko →
      ko.id = koId ∧ ko.reactions = [] ∧ ko.kegg_reaction_aliases = [] ∧
      ko.ec_number_aliases = [] ∧ koId ∈ undef)
    (h : processRecord t net undef r = .ok out) :
    ∀ ko, alookup koId out.1.kos = some ko →
      ko.id = koId ∧ ko.reactions = [] ∧ ko.kegg_reaction_aliases = [] ∧
      ko.ec_number_aliases = [] ∧ koId ∈ out.2 := by
  obtain ⟨gene2, _, hcases⟩ := processRecord_spec t net undef r out h
  rcases hcases with ⟨_, hout⟩ | ⟨_, net2, hnet2, hrest⟩
  · rw [hout]
    exact hP
  · have hkos2 : net2.kos = ainsert r.ko_id (freshKO r) net.kos := by rw [hnet2]
    by_cases hid : koId = r.ko_id
    · subst hid
      rcases hrest with ⟨_, hout⟩ | ⟨hktS, _⟩
      · rw [hout]
        intro ko hko
        rw [hkos2, alookup_ainsert_self] at hko
        cases hko
        exact ⟨rfl, rfl, rfl, rfl, List.mem_append_right _ (List.mem_singleton_self _)⟩
      · rw [hkt] at hktS
        simp at hktS
    · have hold : ∀ n : GenomicNetwork, n.kos = net2.kos →
          ∀ ko, alookup koId n.kos = some ko →
            ko.id = koId ∧ ko.reactions = [] ∧ ko.kegg_reaction_aliases = [] ∧
            ko.ec_number_aliases = [] ∧ koId ∈ undef := by
        intro n hn ko hko
        rw [hn, hkos2, alookup_ainsert_ne _ _ hid] at hko
        exact hP ko hko
      rcases hrest with ⟨_, hout⟩ | ⟨_, hrest2⟩
      · rw [hout]
        intro ko hko
        have h2 := hold net2 rfl ko hko
        exact ⟨h2.1, h2.2.1, h2.2.2.1, h2.2.2.2.1, List.mem_append_left _ h2.2.2.2.2⟩
      · rcases hrest2 with ⟨_, _, hout⟩ | ⟨_, n3, ko1, uk, n4, ko2, ue, hpk, hpe, hd⟩
        · rw [hout]
          exact hold net2 rfl
        · have hk3 : n3.kos = net2.kos := (process_kegg_ids_frame _ _ _ _ _ _ _ hpk).2.1
          have hk4 : n4.kos = n3.kos := (process_ec_numbers_frame _ _ _ _ _ _ _ hpe).2.1
          rcases hd with ⟨_, _, hout⟩ | ⟨_, _, hout⟩ | ⟨_, _, n5, ko3, hcr, hout⟩
          · rw [hout]
            intro ko hko
            rw [show ({ n4 with kos := ainsert r.ko_id ko2 n4.kos } : GenomicNetwork).kos =
                ainsert r.ko_id ko2 n4.kos from rfl,
              alookup_ainsert_ne _ _ hid] at hko
            exact hold n4 (hk4.trans hk3) ko hko
          · rw [hout]
            intro ko hko
            rw [show ({ n4 with kos := ainsert r.ko_id ko2 n4.kos } : GenomicNetwork).kos =
                ainsert r.ko_id ko2 n4.kos from rfl,
              alookup_ainsert_ne _ _ hid] at hko
            exact hold n4 (hk4.trans hk3) ko hko
          · have hk5 : n5.kos = n4.kos := (create_reactions_frame _ _ _ _ _ _ _ hcr).2
            rw [hout]
            intro ko hko
            rw [show ({ n5 with kos := ainsert r.ko_id ko3 n5.kos } : GenomicNetwork).kos =
                ainsert r.ko_id ko3 n5.kos from rfl,
              alookup_ainsert_ne _ _ hid] at hko
            exact hold n4 (hk4.trans hk3) ko (by rwa [hk5] at hko)

theorem processRecord_kos_isSome_mono (t : Tables) (net : GenomicNetwork)
    (undef : List String) (r : AnnotationRecord) (out : GenomicNetwork × List String)
    (koId : String) (h : processRecord t net undef r = .ok out)
    (hs : (alookup koId net.kos).isSome = true) :
    (alookup koId out.1.kos).isSome = true := by
  obtain ⟨gene2, _, hcases⟩ := processRecord_spec t net undef r out h
  rcases hcases with ⟨_, hout⟩ | ⟨_, net2, hnet2, hrest⟩
  · rw [hout]
    exact hs
  · have hkos2 : (alookup koId net2.kos).isSome = true := by
      rw [hnet2]
      exact alookup_isSome_ainsert _ _ _ hs
    rcases hrest with ⟨_, hout⟩ | ⟨_, hrest2⟩
    · rw [hout]
      exact hkos2
    · rcases hrest2 with ⟨_, _, hout⟩ | ⟨_, n3, ko1, uk, n4, ko2, ue, hpk, hpe, hd⟩
      · rw [hout]
        exact hkos2
      · have hk3 : n3.kos = net2.kos := (process_kegg_ids_frame _ _ _ _ _ _ _ hpk).2.1
        have hk4 : n4.kos = n3.kos := (process_ec_numbers_frame _ _ _ _ _ _ _ hpe).2.1
        have hk4s : (alookup koId n4.kos).isSome = true := by
          rw [hk4, hk3]
          exact hkos2
        rcases hd with ⟨_, _, hout⟩ | ⟨_, _, hout⟩ | ⟨_, _, n5, ko3, hcr, hout⟩
        · rw [hout]
          exact alookup_isSome_ainsert _ _ _ hk4s
        · rw [hout]
          exact alookup_isSome_ainsert _ _ _ hk4s
        · have hk5 : n5.kos = n4.kos := (create_reactions_frame _ _ _ _ _ _ _ hcr).2
          rw [hout]
          refine alookup_isSome_ainsert _ _ _ ?_
          rw [hk5]
          exact hk4s

theorem processRecord_kos_isSome_self (t : Tables) (net : GenomicNetwork)
    (undef : List String) (r : AnnotationRecord) (out : GenomicNetwork × List String)
    (h : processRecord t net undef r = .ok out) :
    (alookup r.ko_id out.1.kos).isSome = true := by
  obtain ⟨gene2, _, hcases⟩ := processRecord_spec t net undef r out h
  rcases hcases with ⟨hsome, hout⟩ | ⟨_, net2, hnet2, hrest⟩
  · rw [hout]
    exact hsome
  · have hkos2 : (alookup r.ko_id net2.kos).isSome = true := by
      rw [hnet2, alookup_ainsert_self]
      rfl
    rcases hrest with ⟨_, hout⟩ | ⟨_, hrest2⟩
    · rw [hout]
      exact hkos2
    · rcases hrest2 with ⟨_, _, hout⟩ | ⟨_, n3, ko1, uk, n4, ko2, ue, hpk, hpe, hd⟩
      · rw [hout]
        exact hkos2
      · rcases hd with ⟨_, _, hout⟩ | ⟨_, _, hout⟩ | ⟨_, _, n5, ko3, hcr, hout⟩
        · rw [hout]
          rw [show ({ n4 with kos := ainsert r.ko_id ko2 n4.kos } : GenomicNetwork).kos =
              ainsert r.ko_id ko2 n4.kos from rfl, alookup_ainsert_self]
          rfl
        · rw [hout]
          rw [show ({ n4 with kos := ainsert r.ko_id ko2 n4.kos } : GenomicNetwork).kos =
              ainsert r.ko_id ko2 n4.kos from rfl, alookup_ainsert_self]
          rfl
        · rw [hout]
          rw [show ({ n5 with kos := ainsert r.ko_id ko3 n5.kos } : GenomicNetwork).kos =
              ainsert r.ko_id ko3 n5.kos from rfl, alookup_ainsert_self]
          rfl

theorem runRecords_append_spec (t : Tables) :
    ∀ (l1 : List AnnotationRecord) (r : AnnotationRecord) (l2 : List AnnotationRecord)
      (net : GenomicNetwork) (undef : List String) (out : GenomicNetwork × List String),
      runRecords t (l1 ++ r :: l2) net undef = .ok out →
      ∃ netm undefm st2, runRecords t l1 net undef = .ok (netm, undefm) ∧
        processRecord t netm undefm r = .ok st2 ∧ runRecords t l2 st2.1 st2.2 = .ok out := by
  intro l1
  induction l1 with
  | nil =>
      intro r l2 net undef out h
      simp only [List.nil_append, runRecords] at h
      cases hpr : processRecord t net undef r with
      | error e => rw [hpr] at h; simp at h
      | ok st1 =>
          obtain ⟨n1, u1⟩ := st1
          rw [hpr] at h
          dsimp only at h
          exact ⟨net, undef, (n1, u1), by simp only [runRecords], hpr, h⟩
  | cons a l1 ih =>
      intro r l2 net undef out h
      simp only [List.cons_append, runRecords] at h
      cases hpr : processRecord t net undef a with
      | error e => rw [hpr] at h; simp at h
      | ok st1 =>
          obtain ⟨n1, u1⟩ := st1
          rw [hpr] at h
          dsimp only at h
          obtain ⟨netm, undefm, st2, h1, h2, h3⟩ := ih r l2 n1 u1 out h
          refine ⟨netm, undefm, st2, ?_, h2, h3⟩
          simp only [runRecords]
          rw [hpr]
          exact h1

/-- C8: a KO ID in the annotation stream with no entry in the KO reference
table never makes the builder raise: processing such a record always
succeeds, and in the finished network the KO is present with an empty
reaction map and empty alias maps, its ID collected into the undefined-KO
list reported at the end of the run. -/
theorem c8_undefined_ko :
    (∀ (t : Tables) (net : GenomicNetwork) (undef : List String) (r : AnnotationRecord),
      alookup r.ko_id t.koTable = none → ∃ out, processRecord t net undef r = .ok out) ∧
    (∀ (t : Tables) (recs : List AnnotationRecord) (net : GenomicNetwork)
      (undef : List String) (koId : String),
      make_contigs_database_network t recs = .ok (net, undef) →
      alookup koId t.koTable = none →
      (∃ r ∈ recs, r.ko_id = koId) →
      (alookup koId net.kos).isSome = true ∧
      (∀ ko, alookup koId net.kos = some ko →
        ko.id = koId ∧ ko.reactions = [] ∧ ko.kegg_reaction_aliases = [] ∧
        ko.ec_number_aliases = []) ∧
      koId ∈ undef) := by
  constructor
  · exact processRecord_ok_of_undefined
  · intro t recs net undef koId h hkt hr
    obtain ⟨r, hrmem, hrid⟩ := hr
    obtain ⟨l1, l2, hl⟩ := List.append_of_mem hrmem
    subst hl
    have hrun : runRecords t (l1 ++ r :: l2) emptyNetwork [] = .ok (net, undef) := h
    obtain ⟨netm, undefm, st2, h1, h2, h3⟩ := runRecords_append_spec t l1 r l2 _ _ _ hrun
    have hPinit : ∀ ko, alookup koId (emptyNetwork : GenomicNetwork).kos = some ko →
        ko.id = koId ∧ ko.reactions = [] ∧ ko.kegg_reaction_aliases = [] ∧
        ko.ec_number_aliases = [] ∧ koId ∈ ([] : List String) := by
      intro ko hko
      simp [emptyNetwork, alookup] at hko
    have hPm := runRecords_inv t
      (fun n u => ∀ ko, alookup koId n.kos = some ko →
        ko.id = koId ∧ ko.reactions = [] ∧ ko.kegg_reaction_aliases = [] ∧
        ko.ec_number_aliases = [] ∧ koId ∈ u)
      (fun n u rr oo hP hpr => processRecord_undefined_inv t n u rr oo koId hkt hP hpr)
      l1 emptyNetwork [] (netm, undefm) hPinit h1
    have hP2 := processRecord_undefined_inv t netm undefm r st2 koId hkt hPm h2
    have hsome2 : (alookup koId st2.1.kos).isSome = true := by
      rw [← hrid]
      exact processRecord_kos_isSome_self t netm undefm r st2 h2
    have hfin := runRecords_inv t
      (fun n u => ((alookup koId n.kos).isSome = true) ∧
        ∀ ko, alookup koId n.kos = some ko →
          ko.id = koId ∧ ko.reactions = [] ∧ ko.kegg_reaction_aliases = [] ∧
          ko.ec_number_aliases = [] ∧ koId ∈ u)
      (fun n u rr oo hP hpr =>
        ⟨processRecord_kos_isSome_mono t n u rr oo koId hpr hP.1,
         processRecord_undefined_inv t n u rr oo koId hkt hP.2 hpr⟩)
      l2 st2.1 st2.2 (net, undef) ⟨hsome2, hP2⟩ h3
    obtain ⟨hsome, hshape⟩ := hfin
    refine ⟨hsome, fun ko hko => ?_, ?_⟩
    · have := hshape ko hko
      exact ⟨this.1, this.2.1, this.2.2.1, this.2.2.2.1⟩
    · obtain ⟨ko, hko⟩ := Option.isSome_iff_exists.mp hsome
      exact (hshape ko hko).2.2.2.2

/-- C8 (witness): in the witness run, KO K00404 is absent from the KO table,
yet the build succeeds, the KO sits in the network with an empty reaction
map, and its ID is in the undefined-KO list. -/
theorem c8_witness :
    (alookup "K00404" exNet.kos).isSome = true ∧
    ((alookup "K00404" exNet.kos).getD defaultKO).reactions = [] ∧
    "K00404" ∈ exUndefined := by
  have h := c8_undefined_ko.2 exTables exRecords exNet exUndefined "K00404"
    (by decide) (by decide)
    ⟨{ gcid := 4, ko_id := "K00404", ko_name := "n4", e_value := "0.5" }, by decide, rfl⟩
  exact ⟨h.1, (h.2.1 _ (by decide)).2.1, h.2.2⟩

theorem get_none_of_stoich_none {row : ReactionRow} (h : row.stoichiometry = none) :
    get_modelseed_reaction row = .ok none := by
  simp [get_modelseed_reaction, h]

theorem get_spec {row : ReactionRow} {rx : ModelSEEDReaction} {ids : List String}
    (h : get_modelseed_reaction row = .ok (some (rx, ids))) :
    row.id = some rx.modelseed_id ∧ rx.kegg_id_aliases = rowKeggAliases row ∧
    rx.ec_number_aliases = rowEcAliases row := by
  simp only [get_modelseed_reaction] at h
  split at h
  · simp at h
  · split at h
    · simp at h
    · split at h
      · simp at h
      · split at h
        · simp at h
        · split at h
          · simp at h
          · split at h
            · simp at h
            · next i hi =>
                simp only [Except.ok.injEq, Option.some.injEq, Prod.mk.injEq] at h
                obtain ⟨h1, h2⟩ := h
                rw [← h1]
                exact ⟨by assumption, rfl, rfl⟩

theorem collect_mem :
    ∀ (table : List (String × ReactionRow)) (unadded : List String)
      (acc : List (Option String × ReactionRow)) (q : Option String × ReactionRow),
      q ∈ collect_reactions_data table unadded acc →
      q ∈ acc ∨ (∃ a, (a, q.2) ∈ table ∧ q.1 = (q.2).id) := by
  intro table
  induction table with
  | nil =>
      intro unadded acc q h
      simp only [collect_reactions_data] at h
      exact Or.inl h
  | cons p rest ih =>
      intro unadded acc q h
      obtain ⟨aliasId, row⟩ := p
      simp only [collect_reactions_data] at h
      by_cases h1 : aliasId ∈ unadded
      · rw [if_pos h1] at h
        by_cases h2 : row.id ∈ acc.map Prod.fst
        · rw [if_pos h2] at h
          rcases ih unadded acc q h with h3 | ⟨a, h3, h4⟩
          · exact Or.inl h3
          · exact Or.inr ⟨a, List.mem_cons_of_mem _ h3, h4⟩
        · rw [if_neg h2] at h
          rcases ih unadded (acc ++ [(row.id, row)]) q h with h3 | ⟨a, h3, h4⟩
          · rcases List.mem_append.mp h3 with h4 | h4
            · exact Or.inl h4
            · simp only [List.mem_singleton] at h4
              subst h4
              exact Or.inr ⟨aliasId, List.mem_cons_self _ _, rfl⟩
          · exact Or.inr ⟨a, List.mem_cons_of_mem _ h3, h4⟩
      · rw [if_neg h1] at h
        rcases ih unadded acc q h with h3 | ⟨a, h3, h4⟩
        · exact Or.inl h3
        · exact Or.inr ⟨a, List.mem_cons_of_mem _ h3, h4⟩

theorem collected_mem {t : Tables} {uk ue : List String} {q : Option String × ReactionRow}
    (h : q ∈ collected_reactions_data t uk ue) :
    ∃ a, (a, q.2) ∈ t.keggTable ++ t.ecTable ∧ q.1 = (q.2).id := by
  simp only [collected_reactions_data] at h
  have hkegg : ∀ q' : Option String × ReactionRow,
      q' ∈ (if uk = [] then [] else collect_reactions_data t.keggTable uk []) →
      ∃ a, (a, q'.2) ∈ t.keggTable ∧ q'.1 = (q'.2).id := by
    intro q' hq'
    by_cases hu : uk = []
    · rw [if_pos hu] at hq'
      simp at hq'
    · rw [if_neg hu] at hq'
      rcases collect_mem t.keggTable uk [] q' hq' with h1 | h1
      · simp at h1
      · exact h1
  by_cases he : ue = []
  · rw [if_pos he] at h
    obtain ⟨a, h1, h2⟩ := hkegg q h
    exact ⟨a, List.mem_append_left _ h1, h2⟩
  · rw [if_neg he] at h
    rcases collect_mem t.ecTable ue _ q h with h1 | ⟨a, h1, h2⟩
    · obtain ⟨a, h2, h3⟩ := hkegg q h1
      exact ⟨a, List.mem_append_left _ h2, h3⟩
    · exact ⟨a, List.mem_append_right _ h1, h2⟩

theorem append_rev_notmem {rid0 rid : String} :
    ∀ (aliases : List String) (m m' : List (String × List String)),
      append_rev_index rid aliases m = .ok m' →
      (∀ p ∈ m, rid0 ∉ p.2) → rid0 ≠ rid →
      ∀ p ∈ m', rid0 ∉ p.2 := by
  intro aliases
  induction aliases with
  | nil =>
      intro m m' h hm _
      simp only [append_rev_index] at h
      cases h
      exact hm
  | cons a rest ih =>
      intro m m' h hm hne
      simp only [append_rev_index] at h
      cases hl : alookup a m with
      | none => rw [hl] at h; simp at h
      | some l =>
          rw [hl] at h
          dsimp only at h
          refine ih _ _ h ?_ hne
          intro p hp
          rcases mem_ainsert hp with hpe | ⟨hpm, _⟩
          · rw [hpe]
            intro hmem
            rcases List.mem_append.mp hmem with h1 | h1
            · exact hm _ (alookup_mem hl) h1
            · simp only [List.mem_singleton] at h1
              exact hne h1
          · exact hm p hpm

theorem process_kegg_ids_revclean (kIds ecs : List String) (rid0 : String) :
    ∀ ids s ko un out, process_kegg_ids kIds ecs ids s ko un = .ok out →
      (∀ p ∈ s.kegg_reactions, rid0 ∉ p.2) →
      ∀ p ∈ out.1.kegg_reactions, rid0 ∉ p.2 := by
  intro ids
  induction ids with
  | nil =>
      intro s ko un out h hs
      simp only [process_kegg_ids] at h
      cases h
      exact hs
  | cons kid rest ih =>
      intro s ko un out h hs
      simp only [process_kegg_ids] at h
      split at h
      · refine ih _ _ _ _ h ?_
        intro p hp
        rcases mem_ainsert hp with hpe | ⟨hpm, _⟩
        · rw [hpe]
          simp
        · exact hs p hpm
      · split at h
        · simp at h
        · exact ih _ _ _ _ h hs

theorem process_ec_numbers_revclean (kIds ecs : List String) (rid0 : String) :
    ∀ ids s ko un out, process_ec_numbers kIds ecs ids s ko un = .ok out →
      (∀ p ∈ s.ec_numbers, rid0 ∉ p.2) →
      ∀ p ∈ out.1.ec_numbers, rid0 ∉ p.2 := by
  intro ids
  induction ids with
  | nil =>
      intro s ko un out h hs
      simp only [process_ec_numbers] at h
      cases h
      exact hs
  | cons ec rest ih =>
      intro s ko un out h hs
      simp only [process_ec_numbers] at h
      split at h
      · refine ih _ _ _ _ h ?_
        intro p hp
        rcases mem_ainsert hp with hpe | ⟨hpm, _⟩
        · rw [hpe]
          simp
        · exact hs p hpm
      · split at h
        · simp at h
        · exact ih _ _ _ _ h hs

theorem create_reactions_excluded (t : Tables) (uk ue : List String) (rid : String)
    (hkegg : ∀ p ∈ t.keggTable, (p.2).id = some rid → (p.2).stoichiometry = none)
    (hec : ∀ p ∈ t.ecTable, (p.2).id = some rid → (p.2).stoichiometry = none) :
    ∀ data s ko out,
      (∀ q ∈ data, ∃ a, (a, (q : Option String × ReactionRow).2) ∈ t.keggTable ++ t.ecTable) →
      create_reactions t uk ue data s ko = .ok out →
      RidExcluded rid s → RidExcluded rid out.1 := by
  intro data
  induction data with
  | nil =>
      intro s ko out _ h hx
      simp only [create_reactions] at h
      cases h
      exact hx
  | cons entry rest ih =>
      intro s ko out hdata h hx
      obtain ⟨oid, row⟩ := entry
      have hdata2 : ∀ q ∈ rest, ∃ a, (a, (q : Option String × ReactionRow).2) ∈ t.keggTable ++ t.ecTable :=
        fun q hq => hdata q (List.mem_cons_of_mem _ hq)
      simp only [create_reactions] at h
      split at h
      · simp at h
      · exact ih _ _ _ hdata2 h hx
      · next rx0 cids hget =>
          have hne : rid ≠ rx0.modelseed_id := by
            intro hcontra
            have hspec := get_spec hget
            obtain ⟨a, hrow⟩ := hdata (oid, row) (List.mem_cons_self _ _)
            have hstoich : row.stoichiometry = none := by
              rcases List.mem_append.mp hrow with h1 | h1
              · exact hkegg (a, row) h1 (by rw [hspec.1, ← hcontra])
              · exact hec (a, row) h1 (by rw [hspec.1, ← hcontra])
            rw [get_none_of_stoich_none hstoich] at hget
            simp at hget
          split at h
          · simp at h
          · next s1 rc hcc =>
              have hccf := create_compounds_frame t _ _ _ _ hcc
              split at h
              · simp at h
              · next kr hak =>
                  split at h
                  · simp at h
                  · next en hae =>
                      refine ih _ _ _ hdata2 h ⟨?_, ?_, ?_⟩
                      · have h1 : alookup rid s1.reactions = none := by
                          rw [hccf.2.2.1]; exact hx.1
                        exact (alookup_ainsert_ne _ _ hne).trans h1
                      · intro p hp
                        refine append_rev_notmem _ _ _ hak ?_ hne p hp
                        intro q hq
                        have hq2 : q ∈ s1.kegg_reactions := hq
                        rw [hccf.2.2.2.1] at hq2
                        exact hx.2.1 q hq2
                      · intro p hp
                        refine append_rev_notmem _ _ _ hae ?_ hne p hp
                        intro q hq
                        have hq2 : q ∈ s1.ec_numbers := hq
                        rw [hccf.2.2.2.2] at hq2
                        exact hx.2.2 q hq2

theorem processRecord_excluded (t : Tables) (rid : String)
    (hkegg : ∀ p ∈ t.keggTable, (p.2).id = some rid → (p.2).stoichiometry = none)
    (hec : ∀ p ∈ t.ecTable, (p.2).id = some rid → (p.2).stoichiometry = none)
    (net : GenomicNetwork) (undef : List String) (r : AnnotationRecord)
    (out : GenomicNetwork × List String)
    (h : processRecord t net undef r = .ok out) (hx : RidExcluded rid net) :
    RidExcluded rid out.1 := by
  obtain ⟨gene2, _, hcase⟩ := processRecord_spec t net undef r out h
  rcases hcase with ⟨_, hout⟩ | ⟨_, net2, hnet2, hcase⟩
  · rw [hout]; exact hx
  · have hx2 : RidExcluded rid net2 := by rw [hnet2]; exact hx
    rcases hcase with ⟨_, hout⟩ | ⟨_, hcase⟩
    · rw [hout]; exact hx2
    · rcases hcase with ⟨_, _, hout⟩ | ⟨_, n3, ko1, uk, n4, ko2, ue, hpk, hpe, hcase⟩
      · rw [hout]; exact hx2
      · have hx3 : RidExcluded rid n3 := by
          have hf := process_kegg_ids_frame _ _ _ _ _ _ _ hpk
          dsimp only at hf
          have hcl := process_kegg_ids_revclean _ _ rid _ _ _ _ _ hpk hx2.2.1
          exact ⟨by rw [hf.2.2.1]; exact hx2.1, hcl, by rw [hf.2.2.2.2]; exact hx2.2.2⟩
        have hx4 : RidExcluded rid n4 := by
          have hf := process_ec_numbers_frame _ _ _ _ _ _ _ hpe
          dsimp only at hf
          have hcl := process_ec_numbers_revclean _ _ rid _ _ _ _ _ hpe hx3.2.2
          exact ⟨by rw [hf.2.2.1]; exact hx3.1, by rw [hf.2.2.2.2]; exact hx3.2.1, hcl⟩
        rcases hcase with ⟨_, _, hout⟩ | ⟨_, _, hout⟩ | ⟨_, _, n5, ko3, hcr, hout⟩
        · rw [hout]; exact hx4
        · rw [hout]; exact hx4
        · have hx5 := create_reactions_excluded t uk ue rid hkegg hec
            (collected_reactions_data t uk ue) n4 ko2 (n5, ko3)
            (fun q hq => (collected_mem hq).elim (fun a ha => ⟨a, ha.1⟩)) hcr hx4
          rw [hout]
          exact hx5

/-- C7: a reference reaction row whose stoichiometry field is null is treated
as a non-reaction rather than an error: get_modelseed_reaction returns
.ok none, and in any successful build whose reference rows carrying the
given ModelSEED reaction ID all lack stoichiometry, that ID has no entry in
network.reactions and appears in no reverse-index list of
network.kegg_reactions or network.ec_numbers. -/
theorem c7_missing_stoichiometry_excluded :
    (∀ row : ReactionRow, row.stoichiometry = none → get_modelseed_reaction row = .ok none) ∧
    (∀ (t : Tables) (records : List AnnotationRecord) (rid : String)
      (net : GenomicNetwork) (undef : List String),
      (∀ p ∈ t.keggTable, (p.2).id = some rid → (p.2).stoichiometry = none) →
      (∀ p ∈ t.ecTable, (p.2).id = some rid → (p.2).stoichiometry = none) →
      make_contigs_database_network t records = .ok (net, undef) →
      alookup rid net.reactions = none ∧
      (∀ p ∈ net.kegg_reactions, rid ∉ p.2) ∧
      (∀ p ∈ net.ec_numbers, rid ∉ p.2)) := by
  constructor
  · exact fun row h => get_none_of_stoich_none h
  · intro t records rid net undef hkegg hec h
    have hinit : RidExcluded rid emptyNetwork := ⟨rfl, by simp [emptyNetwork], by simp [emptyNetwork]⟩
    have hrun : runRecords t records emptyNetwork [] = .ok (net, undef) := h
    exact runRecords_inv t (fun n _ => RidExcluded rid n)
      (fun n u rr oo hP hpr => processRecord_excluded t rid hkegg hec n u rr oo hpr hP)
      records emptyNetwork [] (net, undef) hinit hrun

/-- C7 (witness): in the witness run, the reference row for rxnC has no
stoichiometry; get_modelseed_reaction skips it, the build succeeds, and rxnC
is absent from the reactions map and from the reverse-index list of its
looked-up KEGG alias R00404. -/
theorem c7_witness :
    get_modelseed_reaction exRowMissing = .ok none ∧
    alookup "rxnC" exNet.reactions = none ∧
    "rxnC" ∉ (alookup "R00404" exNet.kegg_reactions).getD [] := by
  have h := c7_missing_stoichiometry_excluded
  have h2 := h.2 exTables exRecords "rxnC" exNet exUndefined
    (by decide) (by decide) (by decide)
  refine ⟨h.1 exRowMissing rfl, h2.1, ?_⟩
  intro hmem
  exact h2.2.1 ("R00404", (alookup "R00404" exNet.kegg_reactions).getD [])
    (by decide) hmem

theorem revIndexSound_ainsert_empty {R : List (String × ModelSEEDReaction)}
    {idx : List (String × List String)} {f : ModelSEEDReaction → List String} (a : String)
    (h : RevIndexSound R idx f) : RevIndexSound R (ainsert a [] idx) f := by
  intro p hp rid hrid
  rcases mem_ainsert hp with hpe | ⟨hpm, _⟩
  · rw [hpe] at hrid
    simp at hrid
  · exact h p hpm rid hrid

theorem process_kegg_ids_sound (kIds ecs : List String)
    (R : List (String × ModelSEEDReaction)) (f : ModelSEEDReaction → List String) :
    ∀ ids s ko un out, process_kegg_ids kIds ecs ids s ko un = .ok out →
      RevIndexSound R s.kegg_reactions f → RevIndexSound R out.1.kegg_reactions f := by
  intro ids
  induction ids with
  | nil =>
      intro s ko un out h hs
      simp only [process_kegg_ids] at h
      cases h
      exact hs
  | cons kid rest ih =>
      intro s ko un out h hs
      simp only [process_kegg_ids] at h
      split at h
      · exact ih _ _ _ _ h (revIndexSound_ainsert_empty kid hs)
      · split at h
        · simp at h
        · exact ih _ _ _ _ h hs

theorem process_ec_numbers_sound (kIds ecs : List String)
    (R : List (String × ModelSEEDReaction)) (f : ModelSEEDReaction → List String) :
    ∀ ids s ko un out, process_ec_numbers kIds ecs ids s ko un = .ok out →
      RevIndexSound R s.ec_numbers f → RevIndexSound R out.1.ec_numbers f := by
  intro ids
  induction ids with
  | nil =>
      intro s ko un out h hs
      simp only [process_ec_numbers] at h
      cases h
      exact hs
  | cons ec rest ih =>
      intro s ko un out h hs
      simp only [process_ec_numbers] at h
      split at h
      · exact ih _ _ _ _ h (revIndexSound_ainsert_empty ec hs)
      · split at h
        · simp at h
        · exact ih _ _ _ _ h hs

theorem revIndexSound_congr_reactions {R R' : List (String × ModelSEEDReaction)}
    {idx : List (String × List String)} {f : ModelSEEDReaction → List String}
    (h : RevIndexSound R idx f) (he : R' = R) : RevIndexSound R' idx f := by
  rw [he]
  exact h

theorem revIndexSound_ainsert_rx {R : List (String × ModelSEEDReaction)}
    {idx : List (String × List String)} {f : ModelSEEDReaction → List String}
    {rid' : String} {rx' : ModelSEEDReaction}
    (hold : RevIndexSound R idx f)
    (hsame : ∀ rx0, alookup rid' R = some rx0 → f rx0 = f rx') :
    RevIndexSound (ainsert rid' rx' R) idx f := by
  intro p hp rid hrid
  obtain ⟨rx0, hlk, hmem⟩ := hold p hp rid hrid
  by_cases he : rid = rid'
  · subst he
    exact ⟨rx', alookup_ainsert_self _ _ _, by rw [← hsame rx0 hlk]; exact hmem⟩
  · exact ⟨rx0, by rw [alookup_ainsert_ne _ _ he]; exact hlk, hmem⟩

theorem append_rev_sound {R : List (String × ModelSEEDReaction)}
    {f : ModelSEEDReaction → List String} {rid : String} {rx : ModelSEEDReaction}
    (hlk : alookup rid R = some rx) :
    ∀ (aliases : List String) (m m' : List (String × List String)),
      append_rev_index rid aliases m = .ok m' →
      (∀ a ∈ aliases, a ∈ f rx) →
      RevIndexSound R m f → RevIndexSound R m' f := by
  intro aliases
  induction aliases with
  | nil =>
      intro m m' h _ hs
      simp only [append_rev_index] at h
      cases h
      exact hs
  | cons a rest ih =>
      intro m m' h ha hs
      simp only [append_rev_index] at h
      cases hl : alookup a m with
      | none => rw [hl] at h; simp at h
      | some l =>
          rw [hl] at h
          dsimp only at h
          refine ih _ _ h (fun x hx => ha x (List.mem_cons_of_mem _ hx)) ?_
          intro p hp rid0 hrid0
          rcases mem_ainsert hp with hpe | ⟨hpm, _⟩
          · rw [hpe] at hrid0 ⊢
            rcases List.mem_append.mp hrid0 with h1 | h1
            · exact hs (a, l) (alookup_mem hl) rid0 h1
            · simp only [List.mem_singleton] at h1
              subst h1
              exact ⟨rx, hlk, ha a (List.mem_cons_self _ _)⟩
          · exact hs p hpm rid0 hrid0

theorem netSound_congr {t : Tables} {s s' : GenomicNetwork} (h : NetSound t s)
    (hr : s'.reactions = s.reactions) (hk : s'.kegg_reactions = s.kegg_reactions)
    (he : s'.ec_numbers = s.ec_numbers) : NetSound t s' := by
  refine ⟨?_, ?_, ?_⟩
  · intro p hp
    rw [hr] at hp
    exact h.1 p hp
  · intro p hp rid hrid
    rw [hk] at hp
    obtain ⟨rx1, hlk, hm⟩ := h.2.1 p hp rid hrid
    exact ⟨rx1, by rw [hr]; exact hlk, hm⟩
  · intro p hp rid hrid
    rw [he] at hp
    obtain ⟨rx1, hlk, hm⟩ := h.2.2 p hp rid hrid
    exact ⟨rx1, by rw [hr]; exact hlk, hm⟩

theorem create_reactions_sound (t : Tables) (uk ue : List String) (hcoh : TablesCoherent t) :
    ∀ data s ko out,
      (∀ q ∈ data, ∃ a, (a, (q : Option String × ReactionRow).2) ∈ t.keggTable ++ t.ecTable) →
      create_reactions t uk ue data s ko = .ok out →
      NetSound t s → NetSound t out.1 := by
  intro data
  induction data with
  | nil =>
      intro s ko out _ h hx
      simp only [create_reactions] at h
      cases h
      exact hx
  | cons entry rest ih =>
      intro s ko out hdata h hx
      obtain ⟨oid, row⟩ := entry
      have hdata2 : ∀ q ∈ rest, ∃ a, (a, (q : Option String × ReactionRow).2) ∈ t.keggTable ++ t.ecTable :=
        fun q hq => hdata q (List.mem_cons_of_mem _ hq)
      simp only [create_reactions] at h
      split at h
      · simp at h
      · exact ih _ _ _ hdata2 h hx
      · next rx0 cids hget =>
          obtain ⟨a, hrowmem⟩ := hdata (oid, row) (List.mem_cons_self _ _)
          have hspec := get_spec hget
          split at h
          · simp at h
          · next s1 rc hcc =>
              have hccf := create_compounds_frame t _ _ _ _ hcc
              have hx1 : NetSound t s1 :=
                netSound_congr hx hccf.2.2.1 hccf.2.2.2.1 hccf.2.2.2.2
              have hsame : ∀ rx1, alookup rx0.modelseed_id s1.reactions = some rx1 →
                  rx1.kegg_id_aliases = rx0.kegg_id_aliases ∧
                  rx1.ec_number_aliases = rx0.ec_number_aliases := by
                intro rx1 hlk1
                obtain ⟨q, hq, hqid, _, hqk, hqe⟩ := hx1.1 _ (alookup_mem hlk1)
                have hqr : q.2 = row := by
                  refine hcoh q hq (a, row) hrowmem ?_ ?_
                  · rw [hqid]; rfl
                  · rw [hqid]
                    exact hspec.1.symm
                rw [hqk, hqe, hqr, ← hspec.2.1, ← hspec.2.2]
                exact ⟨rfl, rfl⟩
              have hRTM : ReactionsFromTables t
                  { s1 with reactions := ainsert rx0.modelseed_id { rx0 with compounds := rc } s1.reactions } := by
                intro p hp
                rcases mem_ainsert hp with hpe | ⟨hpm, _⟩
                · subst hpe
                  refine ⟨(a, row), hrowmem, hspec.1, rfl, ?_, ?_⟩
                  · exact hspec.2.1
                  · exact hspec.2.2
                · exact hx1.1 p hpm
              have hkM : RevIndexSound
                  (ainsert rx0.modelseed_id { rx0 with compounds := rc } s1.reactions)
                  s1.kegg_reactions (fun rx => rx.kegg_id_aliases) :=
                revIndexSound_ainsert_rx hx1.2.1 (fun rx1 hlk1 => (hsame rx1 hlk1).1)
              have heM : RevIndexSound
                  (ainsert rx0.modelseed_id { rx0 with compounds := rc } s1.reactions)
                  s1.ec_numbers (fun rx => rx.ec_number_aliases) :=
                revIndexSound_ainsert_rx hx1.2.2 (fun rx1 hlk1 => (hsame rx1 hlk1).2)
              split at h
              · simp at h
              · next kr hak =>
                  have hkr : RevIndexSound
                      (ainsert rx0.modelseed_id { rx0 with compounds := rc } s1.reactions)
                      kr (fun rx => rx.kegg_id_aliases) :=
                    append_rev_sound (alookup_ainsert_self _ _ _) _ _ _ hak
                      (fun x hx => setInter_mem_right hx) hkM
                  split at h
                  · simp at h
                  · next en hae =>
                      have hen : RevIndexSound
                          (ainsert rx0.modelseed_id { rx0 with compounds := rc } s1.reactions)
                          en (fun rx => rx.ec_number_aliases) :=
                        append_rev_sound (alookup_ainsert_self _ _ _) _ _ _ hae
                          (fun x hx => setInter_mem_right hx) heM
                      exact ih _ _ _ hdata2 h ⟨hRTM, hkr, hen⟩

theorem processRecord_sound (t : Tables) (hcoh : TablesCoherent t)
    (net : GenomicNetwork) (undef : List String) (r : AnnotationRecord)
    (out : GenomicNetwork × List String)
    (h : processRecord t net undef r = .ok out) (hx : NetSound t net) :
    NetSound t out.1 := by
  obtain ⟨gene2, _, hcase⟩ := processRecord_spec t net undef r out h
  rcases hcase with ⟨_, hout⟩ | ⟨_, net2, hnet2, hcase⟩
  · rw [hout]; exact hx
  · have hx2 : NetSound t net2 := by rw [hnet2]; exact hx
    rcases hcase with ⟨_, hout⟩ | ⟨_, hcase⟩
    · rw [hout]; exact hx2
    · rcases hcase with ⟨_, _, hout⟩ | ⟨_, n3, ko1, uk, n4, ko2, ue, hpk, hpe, hcase⟩
      · rw [hout]; exact hx2
      · have hx3 : NetSound t n3 := by
          have hf := process_kegg_ids_frame _ _ _ _ _ _ _ hpk
          have hks := process_kegg_ids_sound _ _ net2.reactions
            (fun rx => rx.kegg_id_aliases) _ _ _ _ _ hpk hx2.2.1
          refine ⟨?_, revIndexSound_congr_reactions hks hf.2.2.1, ?_⟩
          · intro p hp
            rw [hf.2.2.1] at hp
            exact hx2.1 p hp
          · intro p hp rid hrid
            rw [hf.2.2.2.2] at hp
            obtain ⟨rx1, hlk, hm⟩ := hx2.2.2 p hp rid hrid
            exact ⟨rx1, by rw [hf.2.2.1]; exact hlk, hm⟩
        have hx4 : NetSound t n4 := by
          have hf := process_ec_numbers_frame _ _ _ _ _ _ _ hpe
          have hes := process_ec_numbers_sound _ _ n3.reactions
            (fun rx => rx.ec_number_aliases) _ _ _ _ _ hpe hx3.2.2
          refine ⟨?_, ?_, revIndexSound_congr_reactions hes hf.2.2.1⟩
          · intro p hp
            rw [hf.2.2.1] at hp
            exact hx3.1 p hp
          · intro p hp rid hrid
            rw [hf.2.2.2.2] at hp
            obtain ⟨rx1, hlk, hm⟩ := hx3.2.1 p hp rid hrid
            exact ⟨rx1, by rw [hf.2.2.1]; exact hlk, hm⟩
        rcases hcase with ⟨_, _, hout⟩ | ⟨_, _, hout⟩ | ⟨_, _, n5, ko3, hcr, hout⟩
        · rw [hout]; exact hx4
        · rw [hout]; exact hx4
        · have hx5 := create_reactions_sound t uk ue hcoh
            (collected_reactions_data t uk ue) n4 ko2 (n5, ko3)
            (fun q hq => (collected_mem hq).elim (fun a ha => ⟨a, ha.1⟩)) hcr hx4
          rw [hout]
          exact hx5

/-- C9: in the shared-reaction run, one KO reaches ModelSEED reaction rxnB
through its KEGG alias R00001 and a later KO reaches it through the EC alias
1.1.1.1; the finished network holds exactly one reactions entry (rxnB), both
KOs are linked to it under that ID, and the reverse-index list for R00001
holds exactly the single ID rxnB. In general, for coherent reference tables
every reverse-index list contains only IDs of registered reactions whose own
alias list contains the indexing alias value. -/
theorem c9_shared_reaction_single_entry :
    (c9Net.reactions.map Prod.fst = ["rxnB"] ∧
      (alookup "rxnB" ((alookup "K00001" c9Net.kos).getD defaultKO).reactions).isSome = true ∧
      (alookup "rxnB" ((alookup "K00002" c9Net.kos).getD defaultKO).reactions).isSome = true ∧
      (alookup "R00001" c9Net.kegg_reactions).getD [] = ["rxnB"]) ∧
    (∀ (t : Tables) (records : List AnnotationRecord) (net : GenomicNetwork)
      (undef : List String), TablesCoherent t →
      make_contigs_database_network t records = .ok (net, undef) →
      RevIndexSound net.reactions net.kegg_reactions (fun rx => rx.kegg_id_aliases) ∧
      RevIndexSound net.reactions net.ec_numbers (fun rx => rx.ec_number_aliases)) := by
  constructor
  · exact ⟨by decide, by decide, by decide, by decide⟩
  · intro t records net undef hcoh h
    have hrun : runRecords t records emptyNetwork [] = .ok (net, undef) := h
    have hinit : NetSound t emptyNetwork := by
      refine ⟨?_, ?_, ?_⟩ <;> intro p hp <;> simp [emptyNetwork] at hp
    have hfin := runRecords_inv t (fun n _ => NetSound t n)
      (fun n u rr oo hP hpr => processRecord_sound t hcoh n u rr oo hpr hP)
      records emptyNetwork [] (net, undef) hinit hrun
    exact ⟨hfin.2.1, hfin.2.2⟩

/-- C9 (witness): the shared-reaction tables are coherent, and instantiating
the general reverse-index soundness at the R00001 entry of the run's network
yields the registered reaction rxnB carrying R00001 among its KEGG aliases. -/
theorem c9_witness :
    TablesCoherent c9Tables ∧
    ∃ rx, alookup "rxnB" c9Net.reactions = some rx ∧ "R00001" ∈ rx.kegg_id_aliases := by
  have hcoh : TablesCoherent c9Tables := by
    unfold TablesCoherent
    decide
  have h := c9_shared_reaction_single_entry.2 c9Tables c9Records c9Net [] hcoh (by decide)
  refine ⟨hcoh, ?_⟩
  exact h.1 ("R00001", (alookup "R00001" c9Net.kegg_reactions).getD [])
    (by decide) "rxnB" (by decide)

theorem link_seen_kegg_ko_sound (t : Tables) (s : GenomicNetwork) (kIds ecs : List String) :
    ∀ rids ko ko', link_seen_kegg s kIds ecs rids ko = .ok ko' →
      (∀ x ∈ kIds, x ∈ koAliasKegg t ko.id) →
      (∀ x ∈ ecs, x ∈ koAliasEc t ko.id) →
      KORecordingSound t ko →
      ko'.id = ko.id ∧ KORecordingSound t ko' := by
  intro rids
  induction rids with
  | nil =>
      intro ko ko' h _ _ hs
      simp only [link_seen_kegg] at h
      cases h
      exact ⟨rfl, hs⟩
  | cons rid rest ih =>
      intro ko ko' h hk he hs
      simp only [link_seen_kegg] at h
      cases hl : alookup rid s.reactions with
      | none => rw [hl] at h; simp at h
      | some reaction =>
          rw [hl] at h
          dsimp only at h
          have hs1 : KORecordingSound t { ko with reactions := ainsert rid reaction ko.reactions, kegg_reaction_aliases := ainsert rid (setInter kIds reaction.kegg_id_aliases) ko.kegg_reaction_aliases, ec_number_aliases := ainsert rid (setInter ecs reaction.ec_number_aliases) ko.ec_number_aliases } := by
            constructor
            · intro p hp
              rcases mem_ainsert hp with hpe | ⟨hpm, hpne⟩
              · subst hpe
                exact ⟨fun x hx => hk x (setInter_mem_left hx), reaction,
                  alookup_ainsert_self _ _ _, fun x hx => setInter_mem_right hx⟩
              · obtain ⟨ha, rx, hrx, hsub⟩ := hs.1 p hpm
                exact ⟨ha, rx, by rw [alookup_ainsert_ne _ _ hpne]; exact hrx, hsub⟩
            · intro p hp
              rcases mem_ainsert hp with hpe | ⟨hpm, hpne⟩
              · subst hpe
                exact ⟨fun x hx => he x (setInter_mem_left hx), reaction,
                  alookup_ainsert_self _ _ _, fun x hx => setInter_mem_right hx⟩
              · obtain ⟨ha, rx, hrx, hsub⟩ := hs.2 p hpm
                exact ⟨ha, rx, by rw [alookup_ainsert_ne _ _ hpne]; exact hrx, hsub⟩
          have h2 := ih _ _ h hk he hs1
          exact h2

theorem link_seen_ec_ko_sound (t : Tables) (s : GenomicNetwork) (kIds ecs : List String) :
    ∀ rids ko ko', link_seen_ec s kIds ecs rids ko = .ok ko' →
      (∀ x ∈ kIds, x ∈ koAliasKegg t ko.id) →
      (∀ x ∈ ecs, x ∈ koAliasEc t ko.id) →
      KORecordingSound t ko →
      ko'.id = ko.id ∧ KORecordingSound t ko' := by
  intro rids
  induction rids with
  | nil =>
      intro ko ko' h _ _ hs
      simp only [link_seen_ec] at h
      cases h
      exact ⟨rfl, hs⟩
  | cons rid rest ih =>
      intro ko ko' h hk he hs
      simp only [link_seen_ec] at h
      cases hl : alookup rid s.reactions with
      | none => rw [hl] at h; simp at h
      | some reaction =>
          rw [hl] at h
          dsimp only at h
          split at h
          · exact ih _ _ h hk he hs
          · have hs1 : KORecordingSound t { ko with reactions := ainsert rid reaction ko.reactions, kegg_reaction_aliases := ainsert rid (setInter kIds reaction.kegg_id_aliases) ko.kegg_reaction_aliases, ec_number_aliases := ainsert rid (setInter ecs reaction.ec_number_aliases) ko.ec_number_aliases } := by
              constructor
              · intro p hp
                rcases mem_ainsert hp with hpe | ⟨hpm, hpne⟩
                · subst hpe
                  exact ⟨fun x hx => hk x (setInter_mem_left hx), reaction,
                    alookup_ainsert_self _ _ _, fun x hx => setInter_mem_right hx⟩
                · obtain ⟨ha, rx, hrx, hsub⟩ := hs.1 p hpm
                  exact ⟨ha, rx, by rw [alookup_ainsert_ne _ _ hpne]; exact hrx, hsub⟩
              · intro p hp
                rcases mem_ainsert hp with hpe | ⟨hpm, hpne⟩
                · subst hpe
                  exact ⟨fun x hx => he x (setInter_mem_left hx), reaction,
                    alookup_ainsert_self _ _ _, fun x hx => setInter_mem_right hx⟩
                · obtain ⟨ha, rx, hrx, hsub⟩ := hs.2 p hpm
                  exact ⟨ha, rx, by rw [alookup_ainsert_ne _ _ hpne]; exact hrx, hsub⟩
            have h2 := ih _ _ h hk he hs1
            exact h2

theorem process_kegg_ids_ko_sound (t : Tables) (kIds ecs : List String) :
    ∀ ids s ko un out, process_kegg_ids kIds ecs ids s ko un = .ok out →
      (∀ x ∈ kIds, x ∈ koAliasKegg t ko.id) →
      (∀ x ∈ ecs, x ∈ koAliasEc t ko.id) →
      KORecordingSound t ko →
      out.2.1.id = ko.id ∧ KORecordingSound t out.2.1 := by
  intro ids
  induction ids with
  | nil =>
      intro s ko un out h _ _ hs
      simp only [process_kegg_ids] at h
      cases h
      exact ⟨rfl, hs⟩
  | cons kid rest ih =>
      intro s ko un out h hk he hs
      simp only [process_kegg_ids] at h
      split at h
      · exact ih _ _ _ _ h hk he hs
      · split at h
        · simp at h
        · next ko1 hlk =>
            obtain ⟨hid1, hs1⟩ := link_seen_kegg_ko_sound t s kIds ecs _ _ _ hlk hk he hs
            have h2 := ih _ _ _ _ h (fun x hx => by rw [hid1]; exact hk x hx)
              (fun x hx => by rw [hid1]; exact he x hx) hs1
            exact ⟨h2.1.trans hid1, h2.2⟩

theorem process_ec_numbers_ko_sound (t : Tables) (kIds ecs : List String) :
    ∀ ids s ko un out, process_ec_numbers kIds ecs ids s ko un = .ok out →
      (∀ x ∈ kIds, x ∈ koAliasKegg t ko.id) →
      (∀ x ∈ ecs, x ∈ koAliasEc t ko.id) →
      KORecordingSound t ko →
      out.2.1.id = ko.id ∧ KORecordingSound t out.2.1 := by
  intro ids
  induction ids with
  | nil =>
      intro s ko un out h _ _ hs
      simp only [process_ec_numbers] at h
      cases h
      exact ⟨rfl, hs⟩
  | cons ec rest ih =>
      intro s ko un out h hk he hs
      simp only [process_ec_numbers] at h
      split at h
      · exact ih _ _ _ _ h hk he hs
      · split at h
        · simp at h
        · next ko1 hlk =>
            obtain ⟨hid1, hs1⟩ := link_seen_ec_ko_sound t s kIds ecs _ _ _ hlk hk he hs
            have h2 := ih _ _ _ _ h (fun x hx => by rw [hid1]; exact hk x hx)
              (fun x hx => by rw [hid1]; exact he x hx) hs1
            exact ⟨h2.1.trans hid1, h2.2⟩

theorem process_kegg_ids_unadded (kIds ecs : List String) :
    ∀ ids s ko un out, process_kegg_ids kIds ecs ids s ko un = .ok out →
      ∀ x ∈ out.2.2, x ∈ un ∨ x ∈ ids := by
  intro ids
  induction ids with
  | nil =>
      intro s ko un out h x hx
      simp only [process_kegg_ids] at h
      cases h
      exact Or.inl hx
  | cons kid rest ih =>
      intro s ko un out h x hx
      simp only [process_kegg_ids] at h
      split at h
      · rcases ih _ _ _ _ h x hx with h1 | h1
        · rcases List.mem_append.mp h1 with h2 | h2
          · exact Or.inl h2
          · simp only [List.mem_singleton] at h2
            subst h2
            exact Or.inr (List.mem_cons_self _ _)
        · exact Or.inr (List.mem_cons_of_mem _ h1)
      · split at h
        · simp at h
        · rcases ih _ _ _ _ h x hx with h1 | h1
          · exact Or.inl h1
          · exact Or.inr (List.mem_cons_of_mem _ h1)

theorem process_ec_numbers_unadded (kIds ecs : List String) :
    ∀ ids s ko un out, process_ec_numbers kIds ecs ids s ko un = .ok out →
      ∀ x ∈ out.2.2, x ∈ un ∨ x ∈ ids := by
  intro ids
  induction ids with
  | nil =>
      intro s ko un out h x hx
      simp only [process_ec_numbers] at h
      cases h
      exact Or.inl hx
  | cons ec rest ih =>
      intro s ko un out h x hx
      simp only [process_ec_numbers] at h
      split at h
      · rcases ih _ _ _ _ h x hx with h1 | h1
        · rcases List.mem_append.mp h1 with h2 | h2
          · exact Or.inl h2
          · simp only [List.mem_singleton] at h2
            subst h2
            exact Or.inr (List.mem_cons_self _ _)
        · exact Or.inr (List.mem_cons_of_mem _ h1)
      · split at h
        · simp at h
        · rcases ih _ _ _ _ h x hx with h1 | h1
          · exact Or.inl h1
          · exact Or.inr (List.mem_cons_of_mem _ h1)

theorem create_reactions_ko_sound (t : Tables) (uk ue : List String) :
    ∀ data s ko out, create_reactions t uk ue data s ko = .ok out →
      (∀ x ∈ uk, x ∈ koAliasKegg t ko.id) →
      (∀ x ∈ ue, x ∈ koAliasEc t ko.id) →
      KORecordingSound t ko →
      out.2.id = ko.id ∧ KORecordingSound t out.2 := by
  intro data
  induction data with
  | nil =>
      intro s ko out h _ _ hs
      simp only [create_reactions] at h
      cases h
      exact ⟨rfl, hs⟩
  | cons entry rest ih =>
      intro s ko out h hk he hs
      obtain ⟨oid, row⟩ := entry
      simp only [create_reactions] at h
      split at h
      · simp at h
      · exact ih _ _ _ h hk he hs
      · next rx0 cids hget =>
          split at h
          · simp at h
          · next s1 rc hcc =>
              split at h
              · simp at h
              · next kr hak =>
                  split at h
                  · simp at h
                  · next en hae =>
                      have hs1 : KORecordingSound t { ko with reactions := ainsert rx0.modelseed_id { rx0 with compounds := rc } ko.reactions, kegg_reaction_aliases := ainsert rx0.modelseed_id (setInter uk rx0.kegg_id_aliases) ko.kegg_reaction_aliases, ec_number_aliases := ainsert rx0.modelseed_id (setInter ue rx0.ec_number_aliases) ko.ec_number_aliases } := by
                        constructor
                        · intro p hp
                          rcases mem_ainsert hp with hpe | ⟨hpm, hpne⟩
                          · subst hpe
                            exact ⟨fun x hx => hk x (setInter_mem_left hx), _,
                              alookup_ainsert_self _ _ _, fun x hx => setInter_mem_right hx⟩
                          · obtain ⟨ha, rx, hrx, hsub⟩ := hs.1 p hpm
                            exact ⟨ha, rx, by rw [alookup_ainsert_ne _ _ hpne]; exact hrx, hsub⟩
                        · intro p hp
                          rcases mem_ainsert hp with hpe | ⟨hpm, hpne⟩
                          · subst hpe
                            exact ⟨fun x hx => he x (setInter_mem_left hx), _,
                              alookup_ainsert_self _ _ _, fun x hx => setInter_mem_right hx⟩
                          · obtain ⟨ha, rx, hrx, hsub⟩ := hs.2 p hpm
                            exact ⟨ha, rx, by rw [alookup_ainsert_ne _ _ hpne]; exact hrx, hsub⟩
                      have h2 := ih _ _ _ h hk he hs1
                      exact h2

theorem processRecord_kos_sound (t : Tables) (net : GenomicNetwork) (undef : List String)
    (r : AnnotationRecord) (out : GenomicNetwork × List String)
    (h : processRecord t net undef r = .ok out) (hx : NetworkKOsSound t net) :
    NetworkKOsSound t out.1 := by
  obtain ⟨gene2, _, hcase⟩ := processRecord_spec t net undef r out h
  rcases hcase with ⟨_, hout⟩ | ⟨_, net2, hnet2, hcase⟩
  · rw [hout]; exact hx
  · have hfresh : KORecordingSound t (freshKO r) := by
      constructor <;> intro p hp <;> simp [freshKO] at hp
    have hx2 : NetworkKOsSound t net2 := by
      rw [hnet2]
      intro p hp
      rcases mem_ainsert hp with hpe | ⟨hpm, _⟩
      · subst hpe
        exact ⟨rfl, hfresh⟩
      · exact hx p hpm
    rcases hcase with ⟨_, hout⟩ | ⟨_, hcase⟩
    · rw [hout]; exact hx2
    · rcases hcase with ⟨_, _, hout⟩ | ⟨_, n3, ko1, uk, n4, ko2, ue, hpk, hpe, hcase⟩
      · rw [hout]; exact hx2
      · have hko1 := process_kegg_ids_ko_sound t _ _ _ _ _ _ _ hpk
          (fun x hx => hx) (fun x hx => hx) hfresh
        have hid1 : ko1.id = r.ko_id := hko1.1
        have hko2 := process_ec_numbers_ko_sound t _ _ _ _ _ _ _ hpe
          (fun x hx => by rw [hid1]; exact hx) (fun x hx => by rw [hid1]; exact hx) hko1.2
        have hid2 : ko2.id = r.ko_id := hko2.1.trans hid1
        have hf3 := process_kegg_ids_frame _ _ _ _ _ _ _ hpk
        have hf4 := process_ec_numbers_frame _ _ _ _ _ _ _ hpe
        have hkos4 : NetworkKOsSound t n4 := by
          intro p hp
          rw [hf4.2.1, hf3.2.1] at hp
          exact hx2 p hp
        rcases hcase with ⟨_, _, hout⟩ | ⟨_, _, hout⟩ | ⟨_, _, n5, ko3, hcr, hout⟩
        · rw [hout]
          intro p hp
          rcases mem_ainsert hp with hpe2 | ⟨hpm, _⟩
          · subst hpe2
            exact ⟨hid2, hko2.2⟩
          · exact hkos4 p hpm
        · rw [hout]
          intro p hp
          rcases mem_ainsert hp with hpe2 | ⟨hpm, _⟩
          · subst hpe2
            exact ⟨hid2, hko2.2⟩
          · exact hkos4 p hpm
        · have huk := process_kegg_ids_unadded _ _ _ _ _ _ _ hpk
          have hue := process_ec_numbers_unadded _ _ _ _ _ _ _ hpe
          have hko3 := create_reactions_ko_sound t uk ue _ _ _ _ hcr
            (fun x hx => by
              rw [hid2]
              rcases huk x hx with h1 | h1
              · simp at h1
              · exact h1)
            (fun x hx => by
              rw [hid2]
              rcases hue x hx with h1 | h1
              · simp at h1
              · exact h1)
            hko2.2
          have hf5 := create_reactions_frame t uk ue _ _ _ _ hcr
          rw [hout]
          intro p hp
          rcases mem_ainsert hp with hpe2 | ⟨hpm, _⟩
          · subst hpe2
            exact ⟨hko3.1.trans hid2, hko3.2⟩
          · rw [hf5.2] at hpm
            exact hkos4 p hpm

/-- C4 (amended): for every KO of a finished network and every reaction ID
recorded in its alias maps, the recorded KEGG-reaction alias tuple is a
subset of the KO's own full KEGG alias list and of the true KEGG alias tuple
of the reaction object the KO is linked to under that ID, and likewise for
the recorded EC-number tuples; the recorded tuples are not in general equal
to the full intersection of the two lists. -/
theorem c4_alias_recording_subset :
    ∀ (t : Tables) (records : List AnnotationRecord) (net : GenomicNetwork)
      (undef : List String),
      make_contigs_database_network t records = .ok (net, undef) →
      ∀ p ∈ net.kos, (p.2).id = p.1 ∧ KORecordingSound t p.2 := by
  intro t records net undef h
  have hrun : runRecords t records emptyNetwork [] = .ok (net, undef) := h
  have hinit : NetworkKOsSound t emptyNetwork := by
    intro p hp
    simp [emptyNetwork] at hp
  exact runRecords_inv t (fun n _ => NetworkKOsSound t n)
    (fun n u rr oo hP hpr => processRecord_kos_sound t n u rr oo hpr hP)
    records emptyNetwork [] (net, undef) hinit hrun

/-- C4 (counterexample): in the alias-overwrite run, KO K00002 reaches rxnA
whose KEGG aliases are R00001 and R00002, and both are in the KO's own full
alias list, so the claimed intersection is the full pair; yet the recorded
tuple for rxnA holds only R00002, because the new-reaction path of the
builder overwrites the tuple recorded by the seen-alias path with the
intersection over the unadded aliases only (line 731). -/
theorem c4_counterexample :
    make_contigs_database_network c4Tables c4Records = .ok (c4Net, []) ∧
    koAliasKegg c4Tables "K00002" = ["R00001", "R00002"] ∧
    (alookup "rxnA" c4Net.reactions).map (fun rx => rx.kegg_id_aliases) =
      some ["R00001", "R00002"] ∧
    (alookup "rxnA" c4KO2.kegg_reaction_aliases).getD [] = ["R00002"] := by
  exact ⟨by decide, by decide, by decide, by decide⟩

/-- C4 (witness): instantiating the amended subset property at KO K00002 of
the alias-overwrite run: the recorded alias R00002 lies in the KO's own
alias list and in the alias tuple of the linked reaction object. -/
theorem c4_witness :
    "R00002" ∈ koAliasKegg c4Tables "K00002" ∧
    ∃ rx, alookup "rxnA" c4KO2.reactions = some rx ∧ "R00002" ∈ rx.kegg_id_aliases := by
  have h := c4_alias_recording_subset c4Tables c4Records c4Net [] (by decide)
  have h2 := (h ("K00002", c4KO2) (by decide)).2.1
    ("rxnA", (alookup "rxnA" c4KO2.kegg_reaction_aliases).getD []) (by decide)
  refine ⟨h2.1 "R00002" (by decide), ?_⟩
  obtain ⟨rx, hrx, hsub⟩ := h2.2
  exact ⟨rx, hrx, hsub "R00002" (by decide)⟩

/-- C1 (code bug): in the compound-ordering run the raw stoichiometry of
rxnB lists its terms as cpdY (coefficient -1) then cpdX (coefficient 1),
and the generated coefficient tuple keeps that term order; but the builder
assembles the compounds tuple as already-seen network compounds first and
newly created compounds second (lines 737-763), so the reaction's compounds
tuple reads (cpdX, cpdY) and is no longer parallel to the coefficients:
positionally, cpdX is paired with -1 although its term says +1. -/
theorem c1_compound_order_bug :
    make_contigs_database_network c1Tables c1Records = .ok (c1Net, []) ∧
    c1RowB.stoichiometry = some "-1:cpdY:0;1:cpdX:0" ∧
    (parse_stoichiometry "-1:cpdY:0;1:cpdX:0").toOption.map (fun x => x.2.1) =
      some ["cpdY", "cpdX"] ∧
    c1RxnB.coefficients = [-1, 1] ∧
    c1RxnB.compounds.map (fun c => c.modelseed_id) = ["cpdX", "cpdY"] ∧
    c1RxnB.compounds.map (fun c => c.modelseed_id) ≠ ["cpdY", "cpdX"] := by
  exact ⟨by decide, by decide, by decide, by decide, by decide, by decide⟩
